import Mathlib

/-! G-tun: control channel, wire format and lifecycle.

A shallow embedding of `server/server.go` and `client/client.go`.

Go strings are byte sequences; they are modelled as `List Nat` (each element a
byte).  The functions of the Go standard library that the two programs call
(`strings.TrimSpace`, `unicode/utf8`, `encoding/json`) are modelled after their
Go sources, with the bit masks and shifts written as `%`, `/` and `*`.
-/

namespace GTun

/-! ## Go strings and UTF-8 (`unicode/utf8`) -/

/-- A Go `string`: a sequence of bytes, not necessarily valid UTF-8. -/
abbrev GoString := List Nat

/-- The bytes of an ASCII literal (every literal of this file is ASCII, where
the code of a character is its byte). -/
def str (s : String) : GoString := s.toList.map Char.toNat

/-- The constant `utf8.RuneError` (U+FFFD). -/
def RuneError : Nat := 0xFFFD

/-- The constant `utf8.RuneSelf`: bytes below it are single-byte runes. -/
def RuneSelf : Nat := 0x80

/-- The constant `utf8.UTFMax`: the longest encoding of a rune, in bytes. -/
def UTFMax : Nat := 4

/-- The tables `utf8.first` and `utf8.acceptRanges` for a lead byte at or above
`RuneSelf`: the size of the sequence and the accepted range of its second byte;
`none` for the bytes marked `xx` (invalid). -/
def leadByte (p0 : Nat) : Option (Nat × Nat × Nat) :=
  if 0xC2 ≤ p0 ∧ p0 ≤ 0xDF then some (2, 0x80, 0xBF)
  else if p0 = 0xE0 then some (3, 0xA0, 0xBF)
  else if 0xE1 ≤ p0 ∧ p0 ≤ 0xEC then some (3, 0x80, 0xBF)
  else if p0 = 0xED then some (3, 0x80, 0x9F)
  else if 0xEE ≤ p0 ∧ p0 ≤ 0xEF then some (3, 0x80, 0xBF)
  else if p0 = 0xF0 then some (4, 0x90, 0xBF)
  else if 0xF1 ≤ p0 ∧ p0 ≤ 0xF3 then some (4, 0x80, 0xBF)
  else if p0 = 0xF4 then some (4, 0x80, 0x8F)
  else none

/-- The function `utf8.DecodeRune`: the first rune of `p` and its width in
bytes; `(RuneError, 1)` for an invalid encoding, `(RuneError, 0)` for the empty
input. -/
def DecodeRune : GoString → Nat × Nat
  | [] => (RuneError, 0)
  | p0 :: rest =>
    if p0 < RuneSelf then (p0, 1)
    else
      match leadByte p0 with
      | none => (RuneError, 1)
      | some (sz, lo, hi) =>
        if rest.length + 1 < sz then (RuneError, 1)
        else
          match rest with
          | [] => (RuneError, 1)
          | b1 :: r1 =>
            if b1 < lo ∨ hi < b1 then (RuneError, 1)
            else if sz ≤ 2 then ((p0 % 32) * 64 + b1 % 64, 2)
            else
              match r1 with
              | [] => (RuneError, 1)
              | b2 :: r2 =>
                if b2 < 0x80 ∨ 0xBF < b2 then (RuneError, 1)
                else if sz ≤ 3 then ((p0 % 16) * 4096 + (b1 % 64) * 64 + b2 % 64, 3)
                else
                  match r2 with
                  | [] => (RuneError, 1)
                  | b3 :: _ =>
                    if b3 < 0x80 ∨ 0xBF < b3 then (RuneError, 1)
                    else
                      ((p0 % 8) * 262144 + (b1 % 64) * 4096 + (b2 % 64) * 64 + b3 % 64, 4)

/-- The function `utf8.EncodeRune`: the UTF-8 bytes of a rune; a surrogate or a
value above `MaxRune` is written as `RuneError`. -/
def EncodeRune (r : Nat) : GoString :=
  if r ≤ 0x7F then [r]
  else if r ≤ 0x7FF then [0xC0 + r / 64, 0x80 + r % 64]
  else if 0x10FFFF < r ∨ (0xD800 ≤ r ∧ r ≤ 0xDFFF) then [0xEF, 0xBF, 0xBD]
  else if r ≤ 0xFFFF then [0xE0 + r / 4096, 0x80 + r / 64 % 64, 0x80 + r % 64]
  else [0xF0 + r / 262144, 0x80 + r / 4096 % 64, 0x80 + r / 64 % 64, 0x80 + r % 64]

/-- The function `utf8.RuneStart`: the byte is not a continuation byte. -/
def RuneStart (b : Nat) : Bool := decide (¬ (0x80 ≤ b ∧ b ≤ 0xBF))

/-- The backward scan of `utf8.DecodeLastRune`:
`for start--; start >= lim; start-- { if RuneStart(s[start]) { break } }`,
entered with `start` already decremented. -/
def lastRuneStart (s : GoString) (lim : Int) : Nat → Int → Int
  | 0, start => start
  | fuel + 1, start =>
    if lim ≤ start then
      if RuneStart (s.getD start.toNat 0) then start
      else lastRuneStart s lim fuel (start - 1)
    else start

/-- The function `utf8.DecodeLastRune`: the last rune of `s` and its width. -/
def DecodeLastRune (s : GoString) : Nat × Nat :=
  if s.length = 0 then (RuneError, 0)
  else
    let last := s.getD (s.length - 1) 0
    if last < RuneSelf then (last, 1)
    else
      let lim : Int := max 0 ((s.length : Int) - (UTFMax : Int))
      let start := max 0 (lastRuneStart s lim UTFMax ((s.length : Int) - 2))
      let d := DecodeRune (s.drop start.toNat)
      if start.toNat + d.2 ≠ s.length then (RuneError, 1) else d

/-! ## `strings.TrimSpace` -/

/-- The function `unicode.IsSpace`: the Latin-1 spaces and the `White_Space`
table beyond Latin-1. -/
def IsSpace (r : Nat) : Bool :=
  if r ≤ 0xFF then
    decide (r = 0x09 ∨ r = 0x0A ∨ r = 0x0B ∨ r = 0x0C ∨ r = 0x0D ∨ r = 0x20 ∨ r = 0x85 ∨ r = 0xA0)
  else
    decide (r = 0x1680 ∨ (0x2000 ≤ r ∧ r ≤ 0x200A) ∨ r = 0x2028 ∨ r = 0x2029 ∨ r = 0x202F
      ∨ r = 0x205F ∨ r = 0x3000)

/-- The table `strings.asciiSpace`. -/
def asciiSpace (c : Nat) : Bool :=
  decide (c = 0x09 ∨ c = 0x0A ∨ c = 0x0B ∨ c = 0x0C ∨ c = 0x0D ∨ c = 0x20)

/-- The function `strings.TrimLeftFunc(s, unicode.IsSpace)`: drop leading runes
while they are spaces. -/
def TrimLeftFunc : Nat → GoString → GoString
  | 0, s => s
  | _ + 1, [] => []
  | fuel + 1, b :: rest =>
    let d := DecodeRune (b :: rest)
    if IsSpace d.1 then TrimLeftFunc fuel ((b :: rest).drop d.2) else b :: rest

/-- The function `strings.lastIndexFunc(s, unicode.IsSpace, false)` started at
index `i`: the index of the last rune of `s[0:i]` that is not a space, `-1`
when there is none. -/
def lastIndexFunc (s : GoString) : Nat → Nat → Int
  | 0, _ => -1
  | fuel + 1, i =>
    if i = 0 then -1
    else
      let d := DecodeLastRune (s.take i)
      if IsSpace d.1 then lastIndexFunc s fuel (i - d.2) else ((i - d.2 : Nat) : Int)

/-- The function `strings.TrimRightFunc(s, unicode.IsSpace)`. -/
def TrimRightFunc (s : GoString) : GoString :=
  let i := lastIndexFunc s s.length s.length
  if 0 ≤ i ∧ RuneSelf ≤ s.getD i.toNat 0 then
    s.take (i.toNat + (DecodeRune (s.drop i.toNat)).2)
  else s.take (i + 1).toNat

/-- The function `strings.TrimFunc(s, unicode.IsSpace)`. -/
def TrimFunc (s : GoString) : GoString := TrimRightFunc (TrimLeftFunc s.length s)

/-- The second loop of `strings.TrimSpace`, run on the reversed remainder: drop
ASCII spaces from the end; at a byte at or above `RuneSelf` fall back to
`TrimRightFunc` on what is left. -/
def trimSpaceEnd : GoString → GoString
  | [] => []
  | c :: revRest =>
    if RuneSelf ≤ c then TrimRightFunc (c :: revRest).reverse
    else if asciiSpace c then trimSpaceEnd revRest
    else (c :: revRest).reverse

/-- The function `strings.TrimSpace`: the first loop drops leading ASCII spaces
and falls back to `TrimFunc` at a byte at or above `RuneSelf`; the second loop
trims the end. -/
def TrimSpace : GoString → GoString
  | [] => []
  | c :: rest =>
    if RuneSelf ≤ c then TrimFunc (c :: rest)
    else if asciiSpace c then TrimSpace rest
    else trimSpaceEnd (c :: rest).reverse

/-- The loop of `utf8.ValidString`: no rune of `s` decodes to
`(RuneError, 1)`. -/
def validLoop : Nat → GoString → Bool
  | _, [] => true
  | 0, _ :: _ => false
  | fuel + 1, b :: rest =>
    if b < RuneSelf then validLoop fuel rest
    else
      let d := DecodeRune (b :: rest)
      if d.1 = RuneError ∧ d.2 = 1 then false
      else validLoop fuel ((b :: rest).drop d.2)

/-- The function `utf8.ValidString`: the string is valid UTF-8. -/
def ValidString (s : GoString) : Bool := validLoop s.length s

/-- A string that stands for itself between the quotes of a JSON string
literal: valid UTF-8 without a double quote, a backslash or a control
character (a decimal port number is such a string). -/
def jsonPlain (s : GoString) : Bool :=
  ValidString s && s.all fun b => decide (0x20 ≤ b ∧ b ≠ 0x22 ∧ b ≠ 0x5C)

/-! ## `encoding/json`: encoding a `Message` -/

/-- The control message of both programs:
`type Message struct { Command string; Payload string }` with the JSON keys
`command` and `payload`. -/
structure Message where
  Command : GoString
  Payload : GoString
deriving DecidableEq, Repr

/-- The client's `type TransportConfig struct { Protocol string; Port string }`
with the JSON keys `protocol` and `port`. -/
structure TransportConfig where
  Protocol : GoString
  Port : GoString
deriving DecidableEq, Repr

/-- The table `hex = "0123456789abcdef"` of `encoding/json`. -/
def hex (n : Nat) : Nat := (str "0123456789abcdef").getD n 0

/-- The table `htmlSafeSet` of `encoding/json`: the ASCII bytes written as they
are with HTML escaping on (the default of `json.NewEncoder`): every byte from
space up, except the double quote, `&`, `<`, `>` and the backslash. -/
def htmlSafeSet (b : Nat) : Bool :=
  decide (0x20 ≤ b ∧ b < 0x80 ∧ b ≠ 0x22 ∧ b ≠ 0x26 ∧ b ≠ 0x3C ∧ b ≠ 0x3E ∧ b ≠ 0x5C)

/-- The `switch b` of `appendString` for an ASCII byte outside `htmlSafeSet`. -/
def escapeByte (b : Nat) : GoString :=
  if b = 0x5C ∨ b = 0x22 then [0x5C, b]
  else if b = 0x08 then [0x5C, 0x62]
  else if b = 0x0C then [0x5C, 0x66]
  else if b = 0x0A then [0x5C, 0x6E]
  else if b = 0x0D then [0x5C, 0x72]
  else if b = 0x09 then [0x5C, 0x74]
  else [0x5C, 0x75, 0x30, 0x30, hex (b / 16), hex (b % 16)]

/-- The loop of `appendString` of `encoding/json` (with `escapeHTML` true), on
the bytes not yet written: a safe ASCII byte is copied, another ASCII byte is
escaped, an invalid UTF-8 byte is written as the escape of U+FFFD, U+2028 and U+2029 are
escaped, any other rune is copied. -/
def appendStringLoop : Nat → GoString → GoString
  | 0, _ => []
  | _ + 1, [] => []
  | fuel + 1, b :: rest =>
    if b < RuneSelf then
      if htmlSafeSet b then b :: appendStringLoop fuel rest
      else escapeByte b ++ appendStringLoop fuel rest
    else
      let d := DecodeRune ((b :: rest).take UTFMax)
      if d.1 = RuneError ∧ d.2 = 1 then
        str "\\ufffd" ++ appendStringLoop fuel rest
      else if d.1 = 0x2028 ∨ d.1 = 0x2029 then
        str "\\u202" ++ hex (d.1 % 16) :: appendStringLoop fuel ((b :: rest).drop d.2)
      else (b :: rest).take d.2 ++ appendStringLoop fuel ((b :: rest).drop d.2)

/-- The function `appendString`: the JSON string literal of a Go string. -/
def appendString (s : GoString) : GoString :=
  0x22 :: appendStringLoop s.length s ++ [0x22]

/-- The call `json.NewEncoder(conn).Encode(msg)` for a `Message`: the object
with the fields in declaration order, followed by a newline. -/
def Encode (msg : Message) : GoString :=
  str "\x7b\"command\":" ++ appendString msg.Command ++ str ",\"payload\":"
    ++ appendString msg.Payload ++ str "\x7d\n"

/-- What successive calls `writer.Encode(msg)` on one encoder write for a list
of messages: the encodings one after the other. -/
def encodeAll : List Message → GoString
  | [] => []
  | msg :: rest => Encode msg ++ encodeAll rest

/-! ## `encoding/json`: decoding -/

/-- The function `isSpace` of the JSON scanner: space, tab, carriage return
and newline. -/
def isSpace (c : Nat) : Bool := decide (c = 0x20 ∨ c = 0x09 ∨ c = 0x0D ∨ c = 0x0A)

/-- Skip the white space the scanner allows between tokens. -/
def skipSpace : GoString → GoString
  | [] => []
  | c :: rest => if isSpace c then skipSpace rest else c :: rest

/-- A hexadecimal digit, as the scanner's `stateInStringEscU` states accept it. -/
def isHex (c : Nat) : Bool :=
  decide ((0x30 ≤ c ∧ c ≤ 0x39) ∨ (0x61 ≤ c ∧ c ≤ 0x66) ∨ (0x41 ≤ c ∧ c ≤ 0x46))

/-- The states of the scanner inside a string literal: `stateInString`,
`stateInStringEsc`, `stateInStringEscU`, `stateInStringEscU1`,
`stateInStringEscU12` and `stateInStringEscU123`. -/
inductive StringState where
  | inString | inStringEsc | inStringEscU | inStringEscU1 | inStringEscU12 | inStringEscU123
deriving DecidableEq, Repr

/-- The scanner inside a string literal, one byte at a time: the bytes before
the closing quote and what follows it.  A control character, an unknown
escape, a bad hexadecimal digit or a missing closing quote is a syntax
error. -/
def scanStringFrom : StringState → GoString → Option (GoString × GoString)
  | _, [] => none
  | .inString, c :: rest =>
    if c = 0x22 then some ([], rest)
    else if c = 0x5C then (scanStringFrom .inStringEsc rest).map fun r => (c :: r.1, r.2)
    else if c < 0x20 then none
    else (scanStringFrom .inString rest).map fun r => (c :: r.1, r.2)
  | .inStringEsc, c :: rest =>
    if c = 0x62 ∨ c = 0x66 ∨ c = 0x6E ∨ c = 0x72 ∨ c = 0x74 ∨ c = 0x5C ∨ c = 0x2F
        ∨ c = 0x22 then
      (scanStringFrom .inString rest).map fun r => (c :: r.1, r.2)
    else if c = 0x75 then (scanStringFrom .inStringEscU rest).map fun r => (c :: r.1, r.2)
    else none
  | .inStringEscU, c :: rest =>
    if isHex c then (scanStringFrom .inStringEscU1 rest).map fun r => (c :: r.1, r.2)
    else none
  | .inStringEscU1, c :: rest =>
    if isHex c then (scanStringFrom .inStringEscU12 rest).map fun r => (c :: r.1, r.2)
    else none
  | .inStringEscU12, c :: rest =>
    if isHex c then (scanStringFrom .inStringEscU123 rest).map fun r => (c :: r.1, r.2)
    else none
  | .inStringEscU123, c :: rest =>
    if isHex c then (scanStringFrom .inString rest).map fun r => (c :: r.1, r.2)
    else none

/-- The scanner on a string literal, entered after the opening quote. -/
def scanString (s : GoString) : Option (GoString × GoString) :=
  scanStringFrom .inString s

/-- The value of a hexadecimal digit in `getu4`. -/
def hexVal (c : Nat) : Option Nat :=
  if 0x30 ≤ c ∧ c ≤ 0x39 then some (c - 0x30)
  else if 0x61 ≤ c ∧ c ≤ 0x66 then some (c - 0x61 + 10)
  else if 0x41 ≤ c ∧ c ≤ 0x46 then some (c - 0x41 + 10)
  else none

/-- The function `getu4`: the number of a `\uXXXX` escape at the start of `s`;
`none` where the source returns `-1`. -/
def getu4 : GoString → Option Nat
  | b :: u :: h1 :: h2 :: h3 :: h4 :: _ =>
    if b = 0x5C ∧ u = 0x75 then
      match hexVal h1, hexVal h2, hexVal h3, hexVal h4 with
      | some a, some b, some c, some d => some (((a * 16 + b) * 16 + c) * 16 + d)
      | _, _, _, _ => none
    else none
  | _ => none

/-- The function `utf16.IsSurrogate`. -/
def IsSurrogate (r : Nat) : Bool := decide (0xD800 ≤ r ∧ r < 0xE000)

/-- The function `utf16.DecodeRune` on a first half and what `getu4` gave for
the second: the rune of a valid surrogate pair, `none` where the source
returns the replacement character. -/
def utf16DecodeRune (r1 : Nat) (r2 : Option Nat) : Option Nat :=
  match r2 with
  | none => none
  | some r2 =>
    if 0xD800 ≤ r1 ∧ r1 < 0xDC00 ∧ 0xDC00 ≤ r2 ∧ r2 < 0xE000 then
      some ((r1 - 0xD800) * 1024 + (r2 - 0xDC00) + 0x10000)
    else none

/-- The first loop of `unquoteBytes`: how many leading bytes need no unquoting
(no backslash, quote or control character, and only valid UTF-8). -/
def unquoteScan : Nat → GoString → Nat
  | 0, _ => 0
  | _ + 1, [] => 0
  | fuel + 1, c :: rest =>
    if c = 0x5C ∨ c = 0x22 ∨ c < 0x20 then 0
    else if c < RuneSelf then 1 + unquoteScan fuel rest
    else
      let d := DecodeRune (c :: rest)
      if d.1 = RuneError ∧ d.2 = 1 then 0
      else d.2 + unquoteScan fuel ((c :: rest).drop d.2)

/-- The case `'u'` of the second loop of `unquoteBytes`, `s` starting at the
backslash: the bytes written and the number of bytes read.  A surrogate
half followed by the escape of its other half gives the rune of the pair; a
surrogate half without it gives U+FFFD. -/
def unquoteU (s : GoString) : Option (GoString × Nat) :=
  match getu4 s with
  | none => none
  | some rr =>
    if IsSurrogate rr then
      match utf16DecodeRune rr (getu4 (s.drop 6)) with
      | some dec => some (EncodeRune dec, 12)
      | none => some (EncodeRune RuneError, 6)
    else some (EncodeRune rr, 6)

/-- One turn of the second loop of `unquoteBytes` at `c :: rest`: the bytes
written and the number of bytes read; `none` where the source returns
`ok = false`.  An escape is replaced by what it stands for, an ASCII byte is
copied, anything else is decoded as a rune and written back (invalid UTF-8
becomes U+FFFD). -/
def unquoteStep (c : Nat) (rest : GoString) : Option (GoString × Nat) :=
  if c = 0x5C then
    match rest.head? with
    | none => none
    | some e =>
      if e = 0x22 ∨ e = 0x5C ∨ e = 0x2F ∨ e = 0x27 then some ([e], 2)
      else if e = 0x62 then some ([0x08], 2)
      else if e = 0x66 then some ([0x0C], 2)
      else if e = 0x6E then some ([0x0A], 2)
      else if e = 0x72 then some ([0x0D], 2)
      else if e = 0x74 then some ([0x09], 2)
      else if e = 0x75 then unquoteU (c :: rest)
      else none
  else if c = 0x22 ∨ c < 0x20 then none
  else if c < RuneSelf then some ([c], 1)
  else some (EncodeRune (DecodeRune (c :: rest)).1, (DecodeRune (c :: rest)).2)

/-- The second loop of `unquoteBytes`. -/
def unquoteLoop : Nat → GoString → Option GoString
  | _, [] => some []
  | 0, _ :: _ => none
  | fuel + 1, c :: rest =>
    match unquoteStep c rest with
    | none => none
    | some (out, n) => (unquoteLoop fuel ((c :: rest).drop n)).map fun t => out ++ t

/-- The function `unquoteBytes` on the inside of a string literal: when the
first loop reaches the end the bytes are returned as they are, otherwise the
second loop continues from where the first stopped. -/
def unquote (raw : GoString) : Option GoString :=
  let r := unquoteScan raw.length raw
  if r = raw.length then some raw
  else (unquoteLoop raw.length (raw.drop r)).map fun t => raw.take r ++ t

/-- A decimal digit. -/
def isDigit (c : Nat) : Bool := decide (0x30 ≤ c ∧ c ≤ 0x39)

/-- Drop leading decimal digits. -/
def skipDigits : GoString → GoString
  | [] => []
  | c :: rest => if isDigit c then skipDigits rest else c :: rest

/-- The scanner's `stateE`, `stateESign` and `stateE0`, entered after `e` or
`E`: an optional sign and at least one digit. -/
def scanExponent (s : GoString) : Option GoString :=
  let s1 := match s with
    | c :: rest => if c = 0x2B ∨ c = 0x2D then rest else c :: rest
    | [] => []
  match s1 with
  | c :: rest => if isDigit c then some (skipDigits rest) else none
  | [] => none

/-- The scanner's `state0`, entered after the integer part of a number: an
optional fraction (`stateDot`, `stateDot0`) and an optional exponent. -/
def scanFraction (s : GoString) : Option GoString :=
  match s with
  | c :: rest =>
    if c = 0x2E then
      match rest with
      | d :: rest1 =>
        if isDigit d then
          match skipDigits rest1 with
          | e :: rest2 =>
            if e = 0x65 ∨ e = 0x45 then scanExponent rest2 else some (e :: rest2)
          | [] => some []
        else none
      | [] => none
    else if c = 0x65 ∨ c = 0x45 then scanExponent rest
    else some (c :: rest)
  | [] => some []

/-- The scanner on a number (`stateNeg`, `state0`, `state1`): what follows
the number, `none` for a syntax error. -/
def scanNumber (s : GoString) : Option GoString :=
  let s1 := match s with
    | c :: rest => if c = 0x2D then rest else c :: rest
    | [] => []
  match s1 with
  | c :: rest =>
    if c = 0x30 then scanFraction rest
    else if 0x31 ≤ c ∧ c ≤ 0x39 then scanFraction (skipDigits rest)
    else none
  | [] => none

/-- Strip the literal `lit` from the front of `s` (the scanner's `stateT…`,
`stateF…` and `stateN…`). -/
def scanLiteral (lit : GoString) (s : GoString) : Option GoString :=
  if lit.isPrefixOf s then some (s.drop lit.length) else none

/-- What the decoder needs of a JSON value that is to be stored in a string
field: `null`, a string literal (its inside, still quoted), or anything else
(number, boolean, array, object). -/
inductive JValue where
  | null
  | string (raw : GoString)
  | other
deriving DecidableEq, Repr

/-- The constant `maxNestingDepth` of the scanner. -/
def maxNestingDepth : Nat := 10000

mutual

/-- One JSON value at the front of `s` (no leading space), at nesting
`depth`: what it is and what follows it. -/
def parseValue : Nat → Nat → GoString → Option (JValue × GoString)
  | 0, _, _ => none
  | _ + 1, _, [] => none
  | fuel + 1, depth, c :: rest =>
    if c = 0x7B then
      if depth + 1 ≤ maxNestingDepth then
        (parseObject fuel (depth + 1) true (skipSpace rest)).map fun r => (.other, r.2)
      else none
    else if c = 0x5B then
      if depth + 1 ≤ maxNestingDepth then
        (parseArray fuel (depth + 1) true (skipSpace rest)).map fun r => (.other, r)
      else none
    else if c = 0x22 then (scanString rest).map fun r => (.string r.1, r.2)
    else if c = 0x2D ∨ isDigit c then (scanNumber (c :: rest)).map fun r => (.other, r)
    else if c = 0x74 then (scanLiteral (str "true") (c :: rest)).map fun r => (.other, r)
    else if c = 0x66 then (scanLiteral (str "false") (c :: rest)).map fun r => (.other, r)
    else if c = 0x6E then (scanLiteral (str "null") (c :: rest)).map fun r => (.null, r)
    else none

/-- The members of an object, entered after the opening brace or after a
comma (`first` says which), leading space skipped: the keys (still quoted)
with their values, and what follows the closing brace. -/
def parseObject : Nat → Nat → Bool → GoString → Option (List (GoString × JValue) × GoString)
  | 0, _, _, _ => none
  | _ + 1, _, _, [] => none
  | fuel + 1, depth, first, c :: rest =>
    if first ∧ c = 0x7D then some ([], rest)
    else if c = 0x22 then
      match scanString rest with
      | none => none
      | some (key, r1) =>
        match skipSpace r1 with
        | colon :: r2 =>
          if colon = 0x3A then
            match parseValue fuel depth (skipSpace r2) with
            | none => none
            | some (v, r3) =>
              match skipSpace r3 with
              | sep :: r4 =>
                if sep = 0x2C then
                  (parseObject fuel depth false (skipSpace r4)).map fun r =>
                    ((key, v) :: r.1, r.2)
                else if sep = 0x7D then some ([(key, v)], r4)
                else none
              | [] => none
          else none
        | [] => none
    else none

/-- The elements of an array, entered after the opening bracket or after a
comma, leading space skipped: what follows the closing bracket. -/
def parseArray : Nat → Nat → Bool → GoString → Option GoString
  | 0, _, _, _ => none
  | _ + 1, _, _, [] => none
  | fuel + 1, depth, first, c :: rest =>
    if first ∧ c = 0x5D then some rest
    else
      match parseValue fuel depth (c :: rest) with
      | none => none
      | some (_, r1) =>
        match skipSpace r1 with
        | sep :: r2 =>
          if sep = 0x2C then parseArray fuel depth false (skipSpace r2)
          else if sep = 0x5D then some r2
          else none
        | [] => none

end

/-- A top-level JSON value as a struct decoder sees it. -/
inductive JTop where
  | null
  | object (members : List (GoString × JValue))
  | other
deriving DecidableEq, Repr

/-- One top-level JSON value at the front of `s` (no leading space) and what
follows it. -/
def parseTop (s : GoString) : Option (JTop × GoString) :=
  match s with
  | [] => none
  | c :: rest =>
    if c = 0x7B then
      (parseObject (s.length + 1) 1 true (skipSpace rest)).map fun r => (.object r.1, r.2)
    else
      (parseValue (s.length + 1) 0 s).map fun r =>
        (match r.1 with
          | .null => JTop.null
          | _ => JTop.other, r.2)

/-- The ASCII part of `foldName`: lower-case ASCII letters become upper-case.
No rune outside ASCII folds to a letter of `command`, `payload`, `protocol`
or `port` (only `k` and `s` have such runes), so for these field names two
names fold to the same name exactly when they agree after this mapping. -/
def foldName (name : GoString) : GoString :=
  name.map fun c => if 0x61 ≤ c ∧ c ≤ 0x7A then c - 0x20 else c

/-- Which of the two fields of a struct an object key names: an exact match
first, then a match of the folded names (`byExactName`, `byFoldedName`). -/
def fieldOf (name1 name2 key : GoString) : Option (Fin 2) :=
  if key = name1 then some 0
  else if key = name2 then some 1
  else if foldName key = foldName name1 then some 0
  else if foldName key = foldName name2 then some 1
  else none

/-- A struct of two string fields while it is decoded: the fields and whether
an `UnmarshalTypeError` was saved. -/
structure Fields where
  field1 : GoString
  field2 : GoString
  typeError : Bool
deriving DecidableEq, Repr

/-- The loop of `decodeState.object` for a struct of two string fields with
the JSON names `name1` and `name2`: an unknown key is skipped, a string is
stored unquoted, `null` stores nothing, any other value saves a type error
and stores nothing; a later member overwrites an earlier one. -/
def storeMembers (name1 name2 : GoString) : List (GoString × JValue) → Fields → Fields
  | [], acc => acc
  | (key, v) :: rest, acc =>
    let acc1 :=
      match fieldOf name1 name2 ((unquote key).getD []) with
      | none => acc
      | some i =>
        match v with
        | .null => acc
        | .other => { acc with typeError := true }
        | .string raw =>
          if i = 0 then { acc with field1 := (unquote raw).getD [] }
          else { acc with field2 := (unquote raw).getD [] }
    storeMembers name1 name2 rest acc1

/-- Storing a top-level value in a zero struct of two string fields: an object
stores its members, `null` stores nothing, any other value is a type error. -/
def storeTop (name1 name2 : GoString) : JTop → Fields
  | .null => ⟨[], [], false⟩
  | .other => ⟨[], [], true⟩
  | .object members => storeMembers name1 name2 members ⟨[], [], false⟩

/-- The errors of `Decoder.Decode`: the input ended before a value began
(`io.EOF`), the bytes are not a JSON value (a `SyntaxError` or
`io.ErrUnexpectedEOF`), or a value does not fit its field
(`UnmarshalTypeError`). -/
inductive DecodeError where
  | eof
  | syntax_
  | type_
deriving DecidableEq, Repr

/-- The call `reader.Decode(&msg)` of the client on a fresh `Message`, `s`
being what the connection still holds: the message and the rest of the input,
or the error. -/
def Decode (s : GoString) : Except DecodeError (Message × GoString) :=
  match skipSpace s with
  | [] => .error .eof
  | c :: rest =>
    match parseTop (c :: rest) with
    | none => .error .syntax_
    | some (top, rest1) =>
      let f := storeTop (str "command") (str "payload") top
      if f.typeError then .error .type_
      else .ok ({ Command := f.field1, Payload := f.field2 }, rest1)

/-- The call `json.Unmarshal([]byte(msg.Payload), &configData)` of the client
on a zero `TransportConfig`, its error dropped as in the source: `checkValid`
wants one value with nothing but space around it and leaves the struct
untouched otherwise; a type error leaves the fields stored so far. -/
def Unmarshal (payload : GoString) : TransportConfig :=
  match parseTop (skipSpace payload) with
  | none => ⟨[], []⟩
  | some (top, rest) =>
    if skipSpace rest = [] then
      let f := storeTop (str "protocol") (str "port") top
      { Protocol := f.field1, Port := f.field2 }
    else ⟨[], []⟩

/-! ## The server's control connection (`server/server.go`) -/

/-- The eight transports; in the source each is a `start…DataListener`
function on the server and a `start…DataForwarder` function on the client. -/
inductive Transport where
  | tcp | udp | ws | tcpmux | wsmux | wss | wssmux | utcpmux
deriving DecidableEq, Repr

/-- The server's `type KcpConfig struct`. -/
structure KcpConfig where
  NoDelay : Int
  Interval : Int
  Resend : Int
  NoCongestion : Int
  SndWnd : Int
  RcvWnd : Int
  DataShards : Int
  ParityShards : Int
deriving DecidableEq, Repr

/-- The server's `type ServerConfig struct`; `DataPorts` is a
`map[string]string`, kept as an association list. -/
structure ServerConfig where
  ControlPort : GoString
  DataPorts : List (GoString × GoString)
  XrayInboundAddress : GoString
  TlsCertPath : GoString
  TlsKeyPath : GoString
  KcpConfig : KcpConfig
deriving DecidableEq, Repr

/-- Indexing a Go `map[string]string`: the value under the key, the empty
string when the key is absent. -/
def mapIndex (m : List (GoString × GoString)) (key : GoString) : GoString :=
  (m.lookup key).getD []

/-- The call `bufio.Reader.ReadString('\n')` on what standard input holds, its
error dropped as in the source: the bytes up to and including the first
newline, or everything when there is none. -/
def ReadString : GoString → GoString
  | [] => []
  | c :: rest => if c = 0x0A then [c] else c :: ReadString rest

namespace Server

/-- What `handleControlConnection` does that is visible outside it. -/
inductive Event where
  /-- `go start…DataListener()` for the transport. -/
  | goListener (t : Transport)
  /-- The bytes `writer.Encode(msg)` writes to the control connection. -/
  | connWrite (bytes : GoString)
  /-- `conn.Close()`. -/
  | connClose
  /-- `os.Exit(code)`. -/
  | osExit (code : Nat)
  /-- `select {}`: the goroutine parks for ever. -/
  | park
deriving DecidableEq, Repr

/-- The payload of line 443:
`fmt.Sprintf("{\"protocol\":\"%s\",\"port\":\"%s\"}", proto, port)`;
`%s` writes a string argument as it is. -/
def payloadOf (proto port : GoString) : GoString :=
  str "\x7b\"protocol\":\"" ++ proto ++ str "\",\"port\":\"" ++ port ++ str "\"\x7d"

/-- The `switch choice` of `handleControlConnection`: protocol tag, port and
listener of a menu entry, `none` for the `default` case. -/
def selectTransport (config : ServerConfig) (choice : GoString) :
    Option (GoString × GoString × Transport) :=
  if choice = str "1" then some (str "tcp", mapIndex config.DataPorts (str "TCP"), .tcp)
  else if choice = str "2" then some (str "udp", mapIndex config.DataPorts (str "UDP"), .udp)
  else if choice = str "3" then some (str "ws", mapIndex config.DataPorts (str "WS"), .ws)
  else if choice = str "4" then
    some (str "tcpmux", mapIndex config.DataPorts (str "TCPMux"), .tcpmux)
  else if choice = str "5" then
    some (str "wsmux", mapIndex config.DataPorts (str "WSMux"), .wsmux)
  else if choice = str "6" then some (str "wss", mapIndex config.DataPorts (str "WSS"), .wss)
  else if choice = str "7" then
    some (str "wssmux", mapIndex config.DataPorts (str "WSSMux"), .wssmux)
  else if choice = str "8" then
    some (str "utcpmux", mapIndex config.DataPorts (str "UTCPMux"), .utcpmux)
  else none

/-- The function `handleControlConnection(conn)` of the server, as the list of
its events in order; `stdin` is what standard input holds.  The lines printed
to standard output are left out.  In the `default` case `os.Exit(1)` ends the
process, so the deferred `conn.Close()` does not run a second time; in the
other cases `select {}` never returns, so it does not run at all. -/
def handleControlConnection (config : ServerConfig) (stdin : GoString) : List Event :=
  let choice := TrimSpace (ReadString stdin)
  match selectTransport config choice with
  | none => [.connClose, .osExit 1]
  | some (proto, port, t) =>
    [.goListener t,
     .connWrite (Encode { Command := str "start_transport", Payload := payloadOf proto port }),
     .park]

end Server

/-- The protocol tag of a transport, as the `switch` statements of the server
and of the client spell it. -/
def Transport.tag : Transport → GoString
  | .tcp => str "tcp"
  | .udp => str "udp"
  | .ws => str "ws"
  | .tcpmux => str "tcpmux"
  | .wsmux => str "wsmux"
  | .wss => str "wss"
  | .wssmux => str "wssmux"
  | .utcpmux => str "utcpmux"

/-- The key of `DataPorts` under which the port of a transport is configured,
as `handleControlConnection` and the `start…DataListener` functions of the
server spell it. -/
def Transport.portKey : Transport → GoString
  | .tcp => str "TCP"
  | .udp => str "UDP"
  | .ws => str "WS"
  | .tcpmux => str "TCPMux"
  | .wsmux => str "WSMux"
  | .wss => str "WSS"
  | .wssmux => str "WSSMux"
  | .utcpmux => str "UTCPMux"

/-! ## The client's control connection (`client/client.go`) -/

namespace Client

/-- What the client's `handleControlConnection` does that is visible outside
it. -/
inductive Event where
  /-- `go start…DataForwarder(dataPort)` for the transport. -/
  | goForwarder (t : Transport) (dataPort : GoString)
  /-- The deferred `conn.Close()`, run when the function returns. -/
  | connClose
deriving DecidableEq, Repr

/-- The `switch configData.Protocol` of `handleControlConnection`: the
forwarder started for a decoded payload; a protocol that is none of the eight
cases starts nothing. -/
def startForwarder (configData : TransportConfig) : List Event :=
  if configData.Protocol = str "tcp" then [.goForwarder .tcp configData.Port]
  else if configData.Protocol = str "udp" then [.goForwarder .udp configData.Port]
  else if configData.Protocol = str "ws" then [.goForwarder .ws configData.Port]
  else if configData.Protocol = str "tcpmux" then [.goForwarder .tcpmux configData.Port]
  else if configData.Protocol = str "wsmux" then [.goForwarder .wsmux configData.Port]
  else if configData.Protocol = str "wss" then [.goForwarder .wss configData.Port]
  else if configData.Protocol = str "wssmux" then [.goForwarder .wssmux configData.Port]
  else if configData.Protocol = str "utcpmux" then [.goForwarder .utcpmux configData.Port]
  else []

/-- The function `handleControlConnection(conn)` of the client, as the list of
its events in order.  `decoded` holds what the successive calls
`reader.Decode(&msg)` give on this connection.  A message is unmarshalled and
dispatched and the loop reads on; the first error makes the function return,
which runs the deferred `conn.Close()`; when the results run out the next
`Decode` blocks and the function has not returned. -/
def handleControlConnection : List (Except DecodeError Message) → List Event
  | [] => []
  | .error _ :: _ => [.connClose]
  | .ok msg :: rest => startForwarder (Unmarshal msg.Payload) ++ handleControlConnection rest

/-- Whether `handleControlConnection` returns: it does at the first `Decode`
that fails. -/
def returns : List (Except DecodeError Message) → Bool
  | [] => false
  | .error _ :: _ => true
  | .ok _ :: rest => returns rest

/-- The successive results of `reader.Decode(&msg)` on a connection that
delivers the bytes `s` and is then closed by the peer: messages up to the first
error; the end of the input is the error `io.EOF`. -/
def decodeStream : Nat → GoString → List (Except DecodeError Message)
  | 0, _ => []
  | fuel + 1, s =>
    match Decode s with
    | .error e => [.error e]
    | .ok (msg, rest) => .ok msg :: decodeStream fuel rest

/-- The results of `reader.Decode(&msg)` on the whole input `s`; every
successful `Decode` consumes at least one byte. -/
def decodeAll (s : GoString) : List (Except DecodeError Message) :=
  decodeStream (s.length + 1) s

end Client

/-! ## The client's reconnect loop (`main` of `client/client.go`) -/

namespace Client

/-- What a call `net.Dial("tcp", config.ControlServerAddress)` meets: an
error, or a connection, given by what the successive `reader.Decode(&msg)`
on it will return. -/
inductive DialOutcome where
  | failed
  | connected (decoded : List (Except DecodeError Message))

/-- What the client's `main` does that is visible outside it. -/
inductive MainEvent where
  /-- `net.Dial("tcp", config.ControlServerAddress)`. -/
  | dial
  /-- `time.Sleep(seconds * time.Second)`. -/
  | sleep (seconds : Nat)
  /-- An event of `handleControlConnection(conn)` on the connection just
  opened. -/
  | control (e : Event)
deriving DecidableEq, Repr

/-- The `for` loop of the client's `main`, run against the outcomes of its
successive dials (the loop itself never ends; the list says how far the run
is followed).  A failed dial is followed by `time.Sleep(5 * time.Second)` and
`continue`; a connection is handed to `handleControlConnection`, and when that
returns the loop goes round again at once.  When `handleControlConnection`
does not return, neither does the loop. -/
def main : List DialOutcome → List MainEvent
  | [] => []
  | .failed :: rest => .dial :: .sleep 5 :: main rest
  | .connected decoded :: rest =>
    .dial :: ((handleControlConnection decoded).map .control
      ++ if returns decoded then main rest else [])

end Client

/-! ## A relay session (`go relayConnections(a, b); relayConnections(b, a)`) -/

/-- Where a relay session stands.  The session holder (`handleTcpDataConnection`
and `handleMuxStream` on the server, the closure of `startTcpDataForwarder` and
`handleLocalMuxConnection` on the client) has deferred the `Close` of its two
endpoints, started `go relayConnections(second, first)` and called
`relayConnections(first, second)` itself. -/
structure RelayState where
  /-- The half-copy started with `go` has returned. -/
  spawnedDone : Bool
  /-- The holder's own `relayConnections` call has returned. -/
  holderDone : Bool
  /-- The deferred `Close` of the second endpoint (deferred last, run first)
  has run. -/
  secondClosed : Bool
  /-- The deferred `Close` of the first endpoint has run. -/
  firstClosed : Bool
deriving DecidableEq, Repr

/-- The steps of a relay session. -/
inductive RelayStep where
  /-- The `io.CopyBuffer` of the spawned goroutine returns (end of stream or
  error on one of its endpoints). -/
  | spawnedReturns
  /-- The `io.CopyBuffer` of the holder returns. -/
  | holderReturns
  /-- The holder runs the deferred `Close` of the second endpoint. -/
  | closeSecond
  /-- The holder runs the deferred `Close` of the first endpoint. -/
  | closeFirst
deriving DecidableEq, Repr

/-- The session right after `go relayConnections(…)`: both half-copies run,
both endpoints are open. -/
def RelayState.init : RelayState := ⟨false, false, false, false⟩

/-- One step of a relay session, `none` when the step cannot happen.  The
holder is one goroutine: its deferred calls run only after its own
`relayConnections` has returned, the one deferred last first. -/
def relayStep (s : RelayState) : RelayStep → Option RelayState
  | .spawnedReturns => if s.spawnedDone then none else some { s with spawnedDone := true }
  | .holderReturns => if s.holderDone then none else some { s with holderDone := true }
  | .closeSecond =>
    if s.holderDone ∧ ¬ s.secondClosed then some { s with secondClosed := true } else none
  | .closeFirst =>
    if s.secondClosed ∧ ¬ s.firstClosed then some { s with firstClosed := true } else none

/-- Run a sequence of steps from a state. -/
def relayRun (s : RelayState) : List RelayStep → Option RelayState
  | [] => some s
  | step :: rest =>
    match relayStep s step with
    | none => none
    | some s' => relayRun s' rest

/-- The holder is still blocked in its own `relayConnections`. -/
def RelayState.holderBlocked (s : RelayState) : Bool := !s.holderDone

/-- Both endpoints are still open. -/
def RelayState.bothOpen (s : RelayState) : Bool := !s.secondClosed && !s.firstClosed

/-! ## The WebSocket stream adapter (`wsConnWrapper`, the same in both programs) -/

/-- A Go `error` as `Read` returns it: `io.EOF` or any other error (a number
names it). -/
inductive IOError where
  | EOF
  | other (code : Nat)
deriving DecidableEq, Repr

/-- A message of the WebSocket connection as `NextReader` hands it out: its
payload, and whether it arrives whole.  When the connection fails inside the
message, the reader reports the connection's error after the payload
received so far instead of `io.EOF`. -/
structure Frame where
  payload : GoString
  complete : Bool
deriving DecidableEq, Repr

/-- The `io.Reader` that `NextReader` returns for one message: the payload
not yet read, whether the message is whole, and the connection's error. -/
structure FrameReader where
  remaining : GoString
  complete : Bool
  err : IOError
deriving DecidableEq, Repr

/-- The reading side of a `*websocket.Conn`: the messages `NextReader` has
not handed out yet, and the error it returns once there is none left (the
connection was closed or failed). -/
structure WsConn where
  frames : List Frame
  readErr : IOError
deriving DecidableEq, Repr

/-- The method `(*websocket.Conn).NextReader`: the reader of the next message,
or the connection's error. -/
def WsConn.NextReader (c : WsConn) : Except IOError (FrameReader × WsConn) :=
  match c.frames with
  | [] => .error c.readErr
  | f :: rest =>
    .ok ({ remaining := f.payload, complete := f.complete, err := c.readErr },
         { c with frames := rest })

/-- The `Read` of a message reader into a buffer of length `len`, `avail`
being the number of bytes the connection has at hand: while payload is left
it returns some of it, at most `len` bytes, with a nil error; after the
payload it returns no byte and `io.EOF` for a whole message, the connection's
error otherwise. -/
def FrameReader.Read (r : FrameReader) (len avail : Nat) :
    (GoString × Option IOError) × FrameReader :=
  if r.remaining = [] then
    (([], some (if r.complete then .EOF else r.err)), r)
  else
    ((r.remaining.take (min len avail), none),
     { r with remaining := r.remaining.drop (min len avail) })

/-- The struct `wsConnWrapper`: the embedded connection and the reader of the
message being read, `none` for the `nil` reader. -/
structure wsConnWrapper where
  Conn : WsConn
  r : Option FrameReader
deriving DecidableEq, Repr

/-- The method `(*wsConnWrapper).Read(b)` with `len(b) = len`: the bytes put in
`b`, the error returned, and the wrapper afterwards.  With a `nil` reader it
first fetches the next reader and returns `(0, err)` when that fails; an
`io.EOF` of the reader resets the reader to `nil` and is returned as a nil
error. -/
def wsConnWrapper.Read (c : wsConnWrapper) (len avail : Nat) :
    (GoString × Option IOError) × wsConnWrapper :=
  let fetched : Except IOError (FrameReader × WsConn) :=
    match c.r with
    | none => c.Conn.NextReader
    | some r => .ok (r, c.Conn)
  match fetched with
  | .error err => (([], some err), c)
  | .ok (r, conn) =>
    let res := r.Read len avail
    if res.1.2 = some .EOF then ((res.1.1, none), { Conn := conn, r := none })
    else (res.1, { Conn := conn, r := some res.2 })

/-- A sequence of `Read` calls, each given by its buffer length and the bytes
at hand: the results in order. -/
def wsConnWrapper.readAll (c : wsConnWrapper) : List (Nat × Nat) → List (GoString × Option IOError)
  | [] => []
  | (len, avail) :: calls =>
    (c.Read len avail).1 :: wsConnWrapper.readAll (c.Read len avail).2 calls

/-- The payload bytes a wrapper has not returned yet, in frame order: the rest
of the message being read, then the messages not handed out yet. -/
def wsConnWrapper.pending (c : wsConnWrapper) : GoString :=
  (match c.r with
    | none => []
    | some r => r.remaining) ++ (c.Conn.frames.map Frame.payload).flatten

/-! ## The UDP session table (`startUdpDataForwarder` of the client) -/

/-- A value of the map `sessions`: the `*net.UDPConn` that `net.DialUDP`
returned, `none` for the nil pointer of a failed dial (the source drops the
error), `some id` for a connection. -/
abbrev Upstream := Option Nat

/-- The state of `startUdpDataForwarder` that its goroutines share, once
`net.ListenUDP` has given the local socket. -/
structure UdpState where
  /-- The map `sessions`, from `clientAddr.String()` to the upstream; `none`
  for an absent key. -/
  sessions : GoString → Option Upstream
  /-- The reader goroutines that were started and have not returned, each with
  the `cAddr` and the `rconn` it was started with. -/
  readers : List (GoString × Upstream)
  /-- How many connections `net.DialUDP` has created so far; the next one
  gets this number. -/
  dialed : Nat
  /-- The upstreams on which `Close` was called, in order. -/
  closed : List Upstream
  /-- The calls `remoteConn.Write(buf[:n])` that wrote, in order. -/
  written : List (Upstream × GoString)
  /-- The calls `lconn.WriteToUDP(data, cAddr)` of the readers, in order. -/
  replied : List (GoString × GoString)
  /-- Whether a goroutine has panicked on a nil `*net.UDPConn`.  Nothing
  recovers the panic, so it ends the process: the state is final. -/
  panicked : Bool

/-- The steps of the session table. -/
inductive UdpStep where
  /-- `localConn.ReadFromUDP` returns a datagram from `src`; `dialOk` says
  whether `net.DialUDP` would succeed. -/
  | datagram (src payload : GoString) (dialOk : Bool)
  /-- The reader started for `src` with the connection `rconn` reads `data`
  from it. -/
  | readData (src : GoString) (rconn : Nat) (data : GoString)
  /-- The reader started for `src` with the connection `rconn` gets an error
  from `rconn.Read`. -/
  | readError (src : GoString) (rconn : Nat)

/-- The state before the first datagram: `sessions` is empty. -/
def UdpState.init : UdpState :=
  { sessions := fun _ => none, readers := [], dialed := 0, closed := [], written := [],
    replied := [], panicked := false }

/-- One step of the session table, `none` when the step cannot happen: the
process has ended in a panic, or the reader named is not running.
A datagram: under the mutex the source is looked up; when absent, the
result of `net.DialUDP` is stored under it and a reader is started; then the
payload is written to the upstream found or stored.  When that upstream is
the nil pointer of a failed dial, `remoteConn.Write` (and the `rconn.Read` of
the reader just started) is a call on a nil `*net.UDPConn`: the goroutine
panics, nothing is written, and the process ends with the nil entry in the
map.
Data read by a reader is sent to the source the reader was started with.
A read error: the reader deletes the key it was started with under the
mutex, closes its `rconn` and returns. -/
def udpStep (s : UdpState) (step : UdpStep) : Option UdpState :=
  if s.panicked then none
  else
    match step with
    | .datagram src payload dialOk =>
      match s.sessions src with
      | some (some c) => some { s with written := s.written ++ [(some c, payload)] }
      | some none => some { s with panicked := true }
      | none =>
        if dialOk then
          some { s with
            sessions := fun k => if k = src then some (some s.dialed) else s.sessions k
            readers := s.readers ++ [(src, some s.dialed)]
            dialed := s.dialed + 1
            written := s.written ++ [(some s.dialed, payload)] }
        else
          some { s with
            sessions := fun k => if k = src then some none else s.sessions k
            readers := s.readers ++ [(src, none)]
            panicked := true }
    | .readData src rconn data =>
      if (src, some rconn) ∈ s.readers then
        some { s with replied := s.replied ++ [(src, data)] }
      else none
    | .readError src rconn =>
      if (src, some rconn) ∈ s.readers then
        some { s with
          sessions := fun k => if k = src then none else s.sessions k
          readers := s.readers.filter fun p => decide (p ≠ (src, some rconn))
          closed := s.closed ++ [some rconn] }
      else none

/-- Run a sequence of steps from a state. -/
def udpRun (s : UdpState) : List UdpStep → Option UdpState
  | [] => some s
  | step :: rest =>
    match udpStep s step with
    | none => none
    | some s' => udpRun s' rest

/-- The invariant of the session table: the entries are exactly the readers
started and not returned, every stored connection was dialled, no upstream
is stored under two sources, and while the process runs no entry holds the
nil pointer. -/
def UdpState.Inv (s : UdpState) : Prop :=
  (∀ src u, s.sessions src = some u ↔ (src, u) ∈ s.readers)
  ∧ (∀ src c, s.sessions src = some (some c) → c < s.dialed)
  ∧ (∀ src1 src2 u, s.sessions src1 = some u → s.sessions src2 = some u → src1 = src2)
  ∧ (s.panicked = false → ∀ src, s.sessions src ≠ some none)

/-! ## The listener registry and the shutdown (`addListener`, `main` of the server) -/

namespace Server

/-- An `io.Closer` registered by the server (a listener, the UDP socket, an
HTTP server), named by a number. -/
abbrev Closer := Nat

/-- What the shutdown goroutine of `main` does that is visible outside it (its
two log lines are left out). -/
inductive ShutdownEvent where
  /-- The call `l.Close()`; `failed` says whether it returned an error, which
  the loop drops. -/
  | close (l : Closer) (failed : Bool)
  /-- `os.Exit(code)`. -/
  | osExit (code : Nat)
deriving DecidableEq, Repr

/-- The function `addListener(l)`, on the value of `activeListeners`:
`activeListeners = append(activeListeners, l)` under the mutex.  The type `α`
stands for the values of `io.Closer`. -/
def addListener {α : Type} (activeListeners : List α) (l : α) : List α :=
  activeListeners ++ [l]

/-- The loop `for _, l := range activeListeners { l.Close() }`; `closeFails`
says for each closable whether its `Close` returns an error. -/
def closeAll (closeFails : Closer → Bool) : List Closer → List ShutdownEvent
  | [] => []
  | l :: rest => .close l (closeFails l) :: closeAll closeFails rest

/-- The goroutine that `main` starts, once the signal has arrived on
`quitChannel`: under the mutex every registered closable is closed, then
`os.Exit(0)`. -/
def shutdown (closeFails : Closer → Bool) (activeListeners : List Closer) :
    List ShutdownEvent :=
  closeAll closeFails activeListeners ++ [.osExit 0]

/-- The closable of a `Close` call. -/
def ShutdownEvent.closed : ShutdownEvent → Option Closer
  | .close l _ => some l
  | .osExit _ => none

end Server

/-! ## The data listeners of the server (`start…DataListener`) -/

namespace Server

/-- The value a listen call leaves in the variable that the source goes on to
use, and that `addListener` receives as an `io.Closer`. -/
inductive Handle where
  /-- The nil interface value: the `net.Listener` that `net.Listen` returns
  together with an error. -/
  | nilInterface
  /-- The nil pointer: the `*net.UDPConn` that `net.ListenUDP` returns
  together with an error.  As an `io.Closer` it is an interface value that
  holds a nil pointer. -/
  | nilPointer
  /-- An open listener, socket or HTTP server. -/
  | listener (l : Closer)
deriving DecidableEq, Repr

/-- What a `start…DataListener` function does that is visible outside it. -/
inductive ListenerEvent where
  /-- The call that creates the listening socket at the address:
  `net.Listen`, `net.ListenUDP`, `kcp.ListenWithOptions`, or the `net.Listen`
  inside `ListenAndServe` and `ListenAndServeTLS`. -/
  | listen (address : GoString)
  /-- The call `addListener(l)`. -/
  | addListener (l : Handle)
  /-- A call `Accept`, `AcceptKCP` or `ReadFromUDP` on `l`; for an HTTP server,
  the `Accept` of its `Serve` on the listener it listens on. -/
  | accept (l : Handle)
  /-- What the loop does with an accepted connection or a datagram received
  (a goroutine per connection, the session table for a datagram). -/
  | serve (conn : Nat)
  /-- The deferred `Close` on `l`, run when the function returns; for an HTTP
  server, the deferred `Close` of the listener it listens on. -/
  | close (l : Handle)
  /-- A run-time panic (nil dereference) in the goroutine of the listener.
  Neither program calls `recover`, so the panic ends the whole process. -/
  | panic
  /-- The function returns. -/
  | returned
deriving DecidableEq, Repr

/-- What a method call on the nil `*net.UDPConn` does.  The library is not
part of the repository: the call either panics on the nil receiver, or the
method finds `c.ok()` false and returns the error `EINVAL`. -/
inductive NilCall where
  | panics
  | fails
deriving DecidableEq, Repr

/-- The network as the listeners meet it: for each address, what the call
that creates a listening socket there returns. -/
structure Net where
  /-- The call `net.Listen("tcp", address)`. -/
  Listen : GoString → Except IOError Closer
  /-- The calls `net.ResolveUDPAddr("udp", address)` and
  `net.ListenUDP("udp", udpAddr)`. -/
  ListenUDP : GoString → Except IOError Closer
  /-- The call `kcp.ListenWithOptions(address, nil, dataShards, parityShards)`. -/
  ListenWithOptions : GoString → Except IOError Closer
  /-- A method call on the nil `*net.UDPConn`. -/
  nilCall : NilCall
  /-- Whether `tls.LoadX509KeyPair(certFile, keyFile)`, which `ServeTLS` calls
  with the two paths of the configuration, loads the certificate and the key. -/
  LoadX509KeyPair : GoString → GoString → Bool := fun _ _ => true

/-- The loop `for { conn, err := listener.Accept(); if err != nil { return };
go … }` on an open listener.  `accepts` holds what the successive calls
return; the first error makes the function return, which runs `onReturn`
(the deferred `Close`, when there is one); when the results run out the next
call blocks. -/
def acceptLoop (l : Closer) (onReturn : List ListenerEvent) :
    List (Except IOError Nat) → List ListenerEvent
  | [] => [.accept (.listener l)]
  | .error _ :: _ => .accept (.listener l) :: onReturn
  | .ok conn :: rest => .accept (.listener l) :: .serve conn :: acceptLoop l onReturn rest

/-- The variable `listener` after `listener, _ := net.Listen(…)`: the error is
dropped, and with an error the listener is the nil interface. -/
def listenerOf : Except IOError Closer → Handle
  | .ok l => .listener l
  | .error _ => .nilInterface

/-- The variable `conn` after `conn, _ := net.ListenUDP(…)`: the error is
dropped, and with an error the connection is the nil pointer. -/
def udpConnOf : Except IOError Closer → Handle
  | .ok l => .listener l
  | .error _ => .nilPointer

/-- The function `startTcpDataListener()`: the registry afterwards and the
events in order.  The listener is registered whatever `net.Listen` returned.
On the nil interface the statement `defer listener.Close()` evaluates a method
of a nil interface value, which is a run-time panic; so is the call
`listener.Accept()` that comes next.  No `Accept` is reached either way. -/
def startTcpDataListener (config : ServerConfig) (net : Net)
    (accepts : List (Except IOError Nat)) (activeListeners : List Handle) :
    List Handle × List ListenerEvent :=
  let port := mapIndex config.DataPorts (str "TCP")
  let address := str "0.0.0.0:" ++ port
  let listener := listenerOf (net.Listen address)
  let registry := addListener activeListeners listener
  match listener with
  | .listener l =>
    (registry, [.listen address, .addListener listener]
      ++ acceptLoop l [.close listener, .returned] accepts)
  | _ => (registry, [.listen address, .addListener listener, .panic])

/-- The function `startTcpMuxDataListener()`: as `startTcpDataListener`, with
the port of `TCPMux`; an accepted connection carries a mux session. -/
def startTcpMuxDataListener (config : ServerConfig) (net : Net)
    (accepts : List (Except IOError Nat)) (activeListeners : List Handle) :
    List Handle × List ListenerEvent :=
  let port := mapIndex config.DataPorts (str "TCPMux")
  let address := str "0.0.0.0:" ++ port
  let listener := listenerOf (net.Listen address)
  let registry := addListener activeListeners listener
  match listener with
  | .listener l =>
    (registry, [.listen address, .addListener listener]
      ++ acceptLoop l [.close listener, .returned] accepts)
  | _ => (registry, [.listen address, .addListener listener, .panic])

/-- The function `startUdpDataListener()`.  The socket is registered whatever
`net.ListenUDP` returned.  On the nil pointer, `defer conn.Close()` and
`conn.ReadFromUDP(buf)` are method calls on a nil `*net.UDPConn`: either the
first of them panics, or `ReadFromUDP` returns an error, the function returns
and the deferred `Close` runs on the nil pointer. -/
def startUdpDataListener (config : ServerConfig) (net : Net)
    (reads : List (Except IOError Nat)) (activeListeners : List Handle) :
    List Handle × List ListenerEvent :=
  let port := mapIndex config.DataPorts (str "UDP")
  let address := str "0.0.0.0:" ++ port
  let conn := udpConnOf (net.ListenUDP address)
  let registry := addListener activeListeners conn
  match conn with
  | .listener l =>
    (registry, [.listen address, .addListener conn]
      ++ acceptLoop l [.close conn, .returned] reads)
  | _ =>
    (registry, [.listen address, .addListener conn]
      ++ match net.nilCall with
         | .panics => [.panic]
         | .fails => [.accept conn, .close conn, .returned])

/-- The shape of `startWsDataListener`, `startWsMuxDataListener`,
`startWssDataListener` and `startWssMuxDataListener`, which differ in the key
of the port, the path and the use of TLS.  The new `http.Server`, named
`server`, is registered first.  Then `ListenAndServe` (or `ListenAndServeTLS`
with `config.TlsCertPath` and `config.TlsKeyPath`) listens and returns at once
when that fails.  With TLS, `ServeTLS` then loads the certificate and the key
and returns when that fails, which closes the new listener.  Otherwise `Serve`
accepts connections on the listener until an `Accept` fails for good (the
listener or the server was closed), closes the listener and returns.  The
error returned is dropped and the function returns. -/
def httpDataListener (key : GoString) (tls : Bool) (config : ServerConfig) (net : Net)
    (server : Closer) (accepts : List (Except IOError Nat)) (activeListeners : List Handle) :
    List Handle × List ListenerEvent :=
  let port := mapIndex config.DataPorts key
  let address := str "0.0.0.0:" ++ port
  let registry := addListener activeListeners (.listener server)
  match net.Listen address with
  | .error _ => (registry, [.addListener (.listener server), .listen address, .returned])
  | .ok ln =>
    if tls && !net.LoadX509KeyPair config.TlsCertPath config.TlsKeyPath then
      (registry,
       [.addListener (.listener server), .listen address, .close (.listener ln), .returned])
    else
      (registry, [.addListener (.listener server), .listen address]
        ++ acceptLoop ln [.close (.listener ln), .returned] accepts)

/-- The function `startWsDataListener()`: the port of `WS`, `ListenAndServe`. -/
def startWsDataListener := httpDataListener (str "WS") false

/-- The function `startWsMuxDataListener()`: the port of `WSMux`,
`ListenAndServe`. -/
def startWsMuxDataListener := httpDataListener (str "WSMux") false

/-- The function `startWssDataListener()`: the port of `WSS`,
`ListenAndServeTLS`. -/
def startWssDataListener := httpDataListener (str "WSS") true

/-- The function `startWssMuxDataListener()`: the port of `WSSMux`,
`ListenAndServeTLS`. -/
def startWssMuxDataListener := httpDataListener (str "WSSMux") true

/-- The function `startUtcpMuxDataListener()`: an error of
`kcp.ListenWithOptions` makes it return before `addListener`; there is no
deferred `Close`.  The tuning calls on an accepted connection are part of
what is done with it. -/
def startUtcpMuxDataListener (config : ServerConfig) (net : Net)
    (accepts : List (Except IOError Nat)) (activeListeners : List Handle) :
    List Handle × List ListenerEvent :=
  let port := mapIndex config.DataPorts (str "UTCPMux")
  let address := str "0.0.0.0:" ++ port
  match net.ListenWithOptions address with
  | .error _ => (activeListeners, [.listen address, .returned])
  | .ok l =>
    (addListener activeListeners (.listener l),
     [.listen address, .addListener (.listener l)] ++ acceptLoop l [.returned] accepts)

/-- The `go start…DataListener()` of a menu entry: the function of the
transport.  `server` names the `http.Server` of the four WebSocket
transports, `accepts` what the accept or read calls return. -/
def startDataListener (t : Transport) (config : ServerConfig) (net : Net) (server : Closer)
    (accepts : List (Except IOError Nat)) (activeListeners : List Handle) :
    List Handle × List ListenerEvent :=
  match t with
  | .tcp => startTcpDataListener config net accepts activeListeners
  | .udp => startUdpDataListener config net accepts activeListeners
  | .ws => startWsDataListener config net server accepts activeListeners
  | .tcpmux => startTcpMuxDataListener config net accepts activeListeners
  | .wsmux => startWsMuxDataListener config net server accepts activeListeners
  | .wss => startWssDataListener config net server accepts activeListeners
  | .wssmux => startWssMuxDataListener config net server accepts activeListeners
  | .utcpmux => startUtcpMuxDataListener config net accepts activeListeners

/-- Whether a run of a listener ends the process: it does when it panics. -/
def endsProcess (events : List ListenerEvent) : Bool :=
  events.contains .panic

/-- Whether a run of a listener calls `Accept`, `ReadFromUDP` or `Close` on a
listener that is missing (a nil value). -/
def usesMissing (events : List ListenerEvent) : Bool :=
  events.any fun e =>
    e = .accept .nilInterface || e = .accept .nilPointer
      || e = .close .nilInterface || e = .close .nilPointer

end Server

/-! # Theorems -/

/-! ## UTF-8: what `DecodeRune` accepts is what `EncodeRune` writes -/

theorem leadByte_spec {p0 sz lo hi : Nat} (h : leadByte p0 = some (sz, lo, hi)) :
    (sz = 2 ∧ 0xC2 ≤ p0 ∧ p0 ≤ 0xDF ∧ lo = 0x80 ∧ hi = 0xBF)
    ∨ (sz = 3 ∧ 0xE0 ≤ p0 ∧ p0 ≤ 0xEF ∧ 0x80 ≤ lo ∧ hi ≤ 0xBF
        ∧ (p0 = 0xE0 → lo = 0xA0) ∧ (p0 = 0xED → hi = 0x9F))
    ∨ (sz = 4 ∧ 0xF0 ≤ p0 ∧ p0 ≤ 0xF4 ∧ 0x80 ≤ lo ∧ hi ≤ 0xBF
        ∧ (p0 = 0xF0 → lo = 0x90) ∧ (p0 = 0xF4 → hi = 0x8F)) := by
  unfold leadByte at h
  split_ifs at h <;> simp only [Option.some.injEq, Prod.mk.injEq, reduceCtorEq] at h <;> omega

/-- The shapes of a rune `DecodeRune` accepts at a byte at or above `RuneSelf`. -/
theorem DecodeRune_spec (a : Nat) (rest : GoString) (ha : ¬ a < RuneSelf) :
    DecodeRune (a :: rest) = (RuneError, 1)
    ∨ (∃ b1 r1, rest = b1 :: r1 ∧ 0xC2 ≤ a ∧ a ≤ 0xDF ∧ 0x80 ≤ b1 ∧ b1 ≤ 0xBF
        ∧ DecodeRune (a :: rest) = ((a % 32) * 64 + b1 % 64, 2))
    ∨ (∃ b1 b2 r2, rest = b1 :: b2 :: r2 ∧ 0xE0 ≤ a ∧ a ≤ 0xEF ∧ 0x80 ≤ b1 ∧ b1 ≤ 0xBF
        ∧ (a = 0xE0 → 0xA0 ≤ b1) ∧ (a = 0xED → b1 ≤ 0x9F) ∧ 0x80 ≤ b2 ∧ b2 ≤ 0xBF
        ∧ DecodeRune (a :: rest) = ((a % 16) * 4096 + (b1 % 64) * 64 + b2 % 64, 3))
    ∨ (∃ b1 b2 b3 r3, rest = b1 :: b2 :: b3 :: r3 ∧ 0xF0 ≤ a ∧ a ≤ 0xF4 ∧ 0x80 ≤ b1 ∧ b1 ≤ 0xBF
        ∧ (a = 0xF0 → 0x90 ≤ b1) ∧ (a = 0xF4 → b1 ≤ 0x8F) ∧ 0x80 ≤ b2 ∧ b2 ≤ 0xBF
        ∧ 0x80 ≤ b3 ∧ b3 ≤ 0xBF
        ∧ DecodeRune (a :: rest)
            = ((a % 8) * 262144 + (b1 % 64) * 4096 + (b2 % 64) * 64 + b3 % 64, 4)) := by
  simp only [DecodeRune, ha, if_false]
  cases hl : leadByte a with
  | none => exact Or.inl rfl
  | some x =>
    obtain ⟨sz, lo, hi⟩ := x
    have hs := leadByte_spec hl
    simp only
    by_cases h0 : rest.length + 1 < sz
    · simp only [h0, if_true, true_or]
    simp only [h0, if_false]
    rcases rest with _ | ⟨b1, r1⟩
    · exact Or.inl rfl
    simp only
    by_cases h1 : b1 < lo ∨ hi < b1
    · simp only [h1, if_true, true_or]
    simp only [h1, if_false]
    by_cases h2 : sz ≤ 2
    · simp only [h2, if_true]
      refine Or.inr (Or.inl ⟨b1, r1, rfl, ?_, ?_, ?_, ?_, rfl⟩) <;> omega
    simp only [h2, if_false]
    rcases r1 with _ | ⟨b2, r2⟩
    · exact Or.inl rfl
    simp only
    by_cases h3 : b2 < 0x80 ∨ 0xBF < b2
    · simp only [h3, if_true, true_or]
    simp only [h3, if_false]
    by_cases h4 : sz ≤ 3
    · simp only [h4, if_true]
      refine Or.inr (Or.inr (Or.inl ⟨b1, b2, r2, rfl, ?_, ?_, ?_, ?_, ?_, ?_, ?_, ?_, rfl⟩))
        <;> omega
    simp only [h4, if_false]
    rcases r2 with _ | ⟨b3, r3⟩
    · exact Or.inl rfl
    simp only
    by_cases h5 : b3 < 0x80 ∨ 0xBF < b3
    · simp only [h5, if_true, true_or]
    simp only [h5, if_false]
    refine Or.inr (Or.inr (Or.inr ⟨b1, b2, b3, r3, rfl, ?_, ?_, ?_, ?_, ?_, ?_, ?_, ?_, ?_, ?_,
      rfl⟩)) <;> omega

theorem DecodeRune_take (s : GoString) : DecodeRune (s.take UTFMax) = DecodeRune s := by
  match s with
  | [] => rfl
  | [a] => rfl
  | [a, b] => rfl
  | [a, b, c] => rfl
  | a :: b :: c :: d :: rest =>
    simp only [UTFMax, List.take_succ_cons, List.take_zero, DecodeRune]
    by_cases h1 : a < RuneSelf
    · simp only [h1, if_true]
    · simp only [h1, if_false]
      cases hl : leadByte a with
      | none => rfl
      | some x =>
        obtain ⟨sz, lo, hi⟩ := x
        have := leadByte_spec hl
        simp only [List.length_cons, List.length_nil]
        have e1 : ¬ (0 + 1 + 1 + 1 + 1 < sz) := by omega
        have e2 : ¬ (rest.length + 1 + 1 + 1 + 1 < sz) := by omega
        simp only [e1, e2, if_false]

theorem DecodeRune_two (a b1 : Nat) (t : GoString) (h1 : 0xC2 ≤ a) (h2 : a ≤ 0xDF)
    (h3 : 0x80 ≤ b1) (h4 : b1 ≤ 0xBF) :
    DecodeRune (a :: b1 :: t) = ((a % 32) * 64 + b1 % 64, 2) := by
  have ha : ¬ a < RuneSelf := by simp only [RuneSelf]; omega
  have hl : leadByte a = some (2, 0x80, 0xBF) := by
    simp only [leadByte, h1, h2, and_self, if_true]
  have e1 : ¬ ((b1 :: t).length + 1 < 2) := by simp
  have e2 : ¬ (b1 < 0x80 ∨ 0xBF < b1) := by omega
  simp only [DecodeRune, ha, if_false, hl, e1, e2, le_refl, if_true]

theorem DecodeRune_three (a b1 b2 : Nat) (t : GoString) (h1 : 0xE0 ≤ a) (h2 : a ≤ 0xEF)
    (h3 : 0x80 ≤ b1) (h4 : b1 ≤ 0xBF) (h5 : a = 0xE0 → 0xA0 ≤ b1) (h6 : a = 0xED → b1 ≤ 0x9F)
    (h7 : 0x80 ≤ b2) (h8 : b2 ≤ 0xBF) :
    DecodeRune (a :: b1 :: b2 :: t) = ((a % 16) * 4096 + (b1 % 64) * 64 + b2 % 64, 3) := by
  have ha : ¬ a < RuneSelf := by simp only [RuneSelf]; omega
  have e1 : ¬ ((b1 :: b2 :: t).length + 1 < 3) := by simp
  have e3 : ¬ (b2 < 0x80 ∨ 0xBF < b2) := by omega
  have e4 : ¬ (3 ≤ 2) := by omega
  cases hl : leadByte a with
  | none =>
    unfold leadByte at hl
    split_ifs at hl
    omega
  | some x =>
    obtain ⟨sz, lo, hi⟩ := x
    have hs := leadByte_spec hl
    have hsz : sz = 3 := by omega
    subst hsz
    have e2 : ¬ (b1 < lo ∨ hi < b1) := by
      unfold leadByte at hl
      split_ifs at hl <;> simp only [Option.some.injEq, Prod.mk.injEq, reduceCtorEq] at hl <;>
        omega
    simp only [DecodeRune, ha, if_false, hl, e1, e2, e3, e4, le_refl, if_true]

theorem leadByte_four (a : Nat) (h1 : 0xF0 ≤ a) (h2 : a ≤ 0xF4) :
    leadByte a = some (4, if a = 0xF0 then 0x90 else 0x80, if a = 0xF4 then 0x8F else 0xBF) := by
  have : a = 0xF0 ∨ a = 0xF1 ∨ a = 0xF2 ∨ a = 0xF3 ∨ a = 0xF4 := by omega
  rcases this with rfl | rfl | rfl | rfl | rfl <;> rfl

theorem DecodeRune_four (a b1 b2 b3 : Nat) (t : GoString) (h1 : 0xF0 ≤ a) (h2 : a ≤ 0xF4)
    (h3 : 0x80 ≤ b1) (h4 : b1 ≤ 0xBF) (h5 : a = 0xF0 → 0x90 ≤ b1) (h6 : a = 0xF4 → b1 ≤ 0x8F)
    (h7 : 0x80 ≤ b2) (h8 : b2 ≤ 0xBF) (h9 : 0x80 ≤ b3) (h10 : b3 ≤ 0xBF) :
    DecodeRune (a :: b1 :: b2 :: b3 :: t)
      = ((a % 8) * 262144 + (b1 % 64) * 4096 + (b2 % 64) * 64 + b3 % 64, 4) := by
  have ha : ¬ a < RuneSelf := by simp only [RuneSelf]; omega
  have e1 : ¬ ((b1 :: b2 :: b3 :: t).length + 1 < 4) := by
    simp only [List.length_cons]; omega
  have e3 : ¬ (b2 < 0x80 ∨ 0xBF < b2) := by omega
  have e4 : ¬ (4 ≤ 2) := by omega
  have e5 : ¬ (4 ≤ 3) := by omega
  have e6 : ¬ (b3 < 0x80 ∨ 0xBF < b3) := by omega
  have hl := leadByte_four a h1 h2
  have e2 : ¬ (b1 < (if a = 0xF0 then 0x90 else 0x80) ∨ (if a = 0xF4 then 0x8F else 0xBF) < b1) := by
    split_ifs <;> omega
  simp only [DecodeRune, ha, if_false, hl, e1, e2, e3, e4, e5, e6, if_true]

/-- What a successful `DecodeRune` at a byte at or above `RuneSelf` tells. -/
theorem DecodeRune_valid (a : Nat) (rest : GoString) (ha : ¬ a < RuneSelf)
    (hv : ¬ ((DecodeRune (a :: rest)).1 = RuneError ∧ (DecodeRune (a :: rest)).2 = 1)) :
    EncodeRune (DecodeRune (a :: rest)).1 = (a :: rest).take (DecodeRune (a :: rest)).2
    ∧ 2 ≤ (DecodeRune (a :: rest)).2
    ∧ (DecodeRune (a :: rest)).2 ≤ (a :: rest).length
    ∧ (∀ b ∈ (a :: rest).take (DecodeRune (a :: rest)).2, 0x80 ≤ b)
    ∧ (∀ t, DecodeRune ((a :: rest).take (DecodeRune (a :: rest)).2 ++ t)
        = DecodeRune (a :: rest)) := by
  rcases DecodeRune_spec a rest ha with h | ⟨b1, r1, rfl, h1, h2, h3, h4, h⟩
    | ⟨b1, b2, r2, rfl, h1, h2, h3, h4, h5, h6, h7, h8, h⟩
    | ⟨b1, b2, b3, r3, rfl, h1, h2, h3, h4, h5, h6, h7, h8, h9, h10, h⟩
  · rw [h] at hv
    exact absurd ⟨rfl, rfl⟩ hv
  · rw [h]
    refine ⟨?_, by simp only; omega, by simp only [List.length_cons]; omega, ?_, ?_⟩
    · simp only [EncodeRune, List.take_succ_cons, List.take_zero]
      have e1 : ¬ (a % 32 * 64 + b1 % 64 ≤ 0x7F) := by omega
      have e2 : a % 32 * 64 + b1 % 64 ≤ 0x7FF := by omega
      simp only [e1, e2, if_false, if_true, List.cons.injEq, and_true]
      constructor <;> omega
    · simp only [List.take_succ_cons, List.take_zero, List.mem_cons, List.mem_singleton,
        List.not_mem_nil, or_false]
      rintro b (rfl | rfl) <;> omega
    · intro t
      exact DecodeRune_two a b1 t h1 h2 h3 h4
  · rw [h]
    refine ⟨?_, by simp only; omega, by simp only [List.length_cons]; omega, ?_, ?_⟩
    · simp only [EncodeRune, List.take_succ_cons, List.take_zero]
      have e1 : ¬ (a % 16 * 4096 + b1 % 64 * 64 + b2 % 64 ≤ 0x7F) := by omega
      have e2 : ¬ (a % 16 * 4096 + b1 % 64 * 64 + b2 % 64 ≤ 0x7FF) := by omega
      have e3 : ¬ (0x10FFFF < a % 16 * 4096 + b1 % 64 * 64 + b2 % 64
          ∨ (0xD800 ≤ a % 16 * 4096 + b1 % 64 * 64 + b2 % 64
            ∧ a % 16 * 4096 + b1 % 64 * 64 + b2 % 64 ≤ 0xDFFF)) := by omega
      have e4 : a % 16 * 4096 + b1 % 64 * 64 + b2 % 64 ≤ 0xFFFF := by omega
      simp only [e1, e2, e3, e4, if_false, if_true, List.cons.injEq, and_true]
      refine ⟨?_, ?_, ?_⟩ <;> omega
    · simp only [List.take_succ_cons, List.take_zero, List.mem_cons, List.mem_singleton,
        List.not_mem_nil, or_false]
      rintro b (rfl | rfl | rfl) <;> omega
    · intro t
      exact DecodeRune_three a b1 b2 t h1 h2 h3 h4 h5 h6 h7 h8
  · rw [h]
    refine ⟨?_, by simp only; omega, by simp only [List.length_cons]; omega, ?_, ?_⟩
    · simp only [EncodeRune, List.take_succ_cons, List.take_zero]
      have e1 : ¬ (a % 8 * 262144 + b1 % 64 * 4096 + b2 % 64 * 64 + b3 % 64 ≤ 0x7F) := by omega
      have e2 : ¬ (a % 8 * 262144 + b1 % 64 * 4096 + b2 % 64 * 64 + b3 % 64 ≤ 0x7FF) := by
        omega
      have e3 : ¬ (0x10FFFF < a % 8 * 262144 + b1 % 64 * 4096 + b2 % 64 * 64 + b3 % 64
          ∨ (0xD800 ≤ a % 8 * 262144 + b1 % 64 * 4096 + b2 % 64 * 64 + b3 % 64
            ∧ a % 8 * 262144 + b1 % 64 * 4096 + b2 % 64 * 64 + b3 % 64 ≤ 0xDFFF)) := by omega
      have e4 : ¬ (a % 8 * 262144 + b1 % 64 * 4096 + b2 % 64 * 64 + b3 % 64 ≤ 0xFFFF) := by
        omega
      simp only [e1, e2, e3, e4, if_false, if_true, List.cons.injEq, and_true]
      refine ⟨?_, ?_, ?_, ?_⟩ <;> omega
    · simp only [List.take_succ_cons, List.take_zero, List.mem_cons, List.mem_singleton,
        List.not_mem_nil, or_false]
      rintro b (rfl | rfl | rfl | rfl) <;> omega
    · intro t
      exact DecodeRune_four a b1 b2 b3 t h1 h2 h3 h4 h5 h6 h7 h8 h9 h10

/-! ## JSON string literals: escapes -/

theorem hex_spec : ∀ n, n < 16 → isHex (hex n) = true ∧ hexVal (hex n) = some n := by
  decide

theorem scanString_plain (xs X enc t : GoString)
    (h : ∀ b ∈ xs, 0x20 ≤ b ∧ b ≠ 0x22 ∧ b ≠ 0x5C) (hX : scanString X = some (enc, t)) :
    scanString (xs ++ X) = some (xs ++ enc, t) := by
  unfold scanString at hX ⊢
  induction xs with
  | nil => simpa using hX
  | cons b xs ih =>
    have hb := h b (List.mem_cons_self _ _)
    have ih := ih fun c hc => h c (List.mem_cons_of_mem _ hc)
    have e1 : ¬ b = 0x22 := hb.2.1
    have e2 : ¬ b = 0x5C := hb.2.2
    have e3 : ¬ b < 0x20 := by omega
    rw [List.cons_append]
    simp only [scanStringFrom, e1, e2, e3, if_false, ih, Option.map_some', List.cons_append]

/-- What an ASCII byte outside `htmlSafeSet` is. -/
theorem not_htmlSafe {b : Nat} (hb : b < RuneSelf) (hs : htmlSafeSet b = false) :
    b < 0x20 ∨ b = 0x22 ∨ b = 0x26 ∨ b = 0x3C ∨ b = 0x3E ∨ b = 0x5C := by
  simp only [htmlSafeSet, RuneSelf, decide_eq_false_iff_not] at hs hb
  omega

theorem htmlSafe_plain {b : Nat} (hs : htmlSafeSet b = true) :
    0x20 ≤ b ∧ b ≠ 0x22 ∧ b ≠ 0x5C ∧ b < 0x80 := by
  simp only [htmlSafeSet, decide_eq_true_eq] at hs
  omega

theorem escapeByte_length (b : Nat) : 2 ≤ (escapeByte b).length := by
  unfold escapeByte
  split_ifs <;> simp

theorem scanString_escapeByte (b : Nat) (X enc t : GoString) (hb : b < RuneSelf)
    (hX : scanString X = some (enc, t)) :
    scanString (escapeByte b ++ X) = some (escapeByte b ++ enc, t) := by
  have hlt : b < 128 := hb
  have h16 := hex_spec (b / 16) (by omega)
  have h16' := hex_spec (b % 16) (by omega)
  have h0 : isHex 0x30 = true := by decide
  unfold scanString at hX ⊢
  unfold escapeByte
  split_ifs with c1 c2 c3 c4 c5 c6
  · rcases c1 with rfl | rfl <;> simp [scanStringFrom, hX]
  · subst c2; simp [scanStringFrom, hX]
  · subst c3; simp [scanStringFrom, hX]
  · subst c4; simp [scanStringFrom, hX]
  · subst c5; simp [scanStringFrom, hX]
  · subst c6; simp [scanStringFrom, hX]
  · simp [scanStringFrom, h16.1, h16'.1, h0, hX]

theorem unquoteLoop_escapeByte (b : Nat) (X r : GoString) (f : Nat) (hb : b < RuneSelf)
    (hX : unquoteLoop f X = some r) :
    unquoteLoop (f + 1) (escapeByte b ++ X) = some (b :: r) := by
  have hlt : b < 128 := hb
  have h16 := hex_spec (b / 16) (by omega)
  have h16' := hex_spec (b % 16) (by omega)
  unfold escapeByte
  split_ifs with c1 c2 c3 c4 c5 c6
  · rcases c1 with rfl | rfl <;> simp [unquoteLoop, unquoteStep, hX]
  · subst c2; simp [unquoteLoop, unquoteStep, hX]
  · subst c3; simp [unquoteLoop, unquoteStep, hX]
  · subst c4; simp [unquoteLoop, unquoteStep, hX]
  · subst c5; simp [unquoteLoop, unquoteStep, hX]
  · subst c6; simp [unquoteLoop, unquoteStep, hX]
  · have hg : getu4 (0x5C :: 0x75 :: 0x30 :: 0x30 :: hex (b / 16) :: hex (b % 16) :: X)
        = some b := by
      simp only [getu4, and_self, if_true, h16.2, h16'.2]
      have : hexVal 0x30 = some 0 := by decide
      simp only [this, Option.some.injEq]
      omega
    have hsur : IsSurrogate b = false := by
      simp only [IsSurrogate, decide_eq_false_iff_not]; omega
    have henc : EncodeRune b = [b] := by
      simp only [EncodeRune]
      have : b ≤ 0x7F := by omega
      simp only [this, if_true]
    simp [unquoteLoop, unquoteStep, unquoteU, hg, hsur, henc, hX]

/-! ## JSON string literals: the scanner and `unquoteBytes` on what `appendString` writes -/

theorem str_u202 : str "\\u202" = [0x5C, 0x75, 0x32, 0x30, 0x32] := by decide

theorem appendStringLoop_cons (n b : Nat) (rest : GoString) :
    appendStringLoop (n + 1) (b :: rest) =
      if b < RuneSelf then
        if htmlSafeSet b then b :: appendStringLoop n rest
        else escapeByte b ++ appendStringLoop n rest
      else
        if (DecodeRune (b :: rest)).1 = RuneError ∧ (DecodeRune (b :: rest)).2 = 1 then
          str "\\ufffd" ++ appendStringLoop n rest
        else if (DecodeRune (b :: rest)).1 = 0x2028 ∨ (DecodeRune (b :: rest)).1 = 0x2029 then
          [0x5C, 0x75, 0x32, 0x30, 0x32, hex ((DecodeRune (b :: rest)).1 % 16)]
            ++ appendStringLoop n ((b :: rest).drop (DecodeRune (b :: rest)).2)
        else (b :: rest).take (DecodeRune (b :: rest)).2
            ++ appendStringLoop n ((b :: rest).drop (DecodeRune (b :: rest)).2) := by
  rw [appendStringLoop, DecodeRune_take, str_u202]
  rfl

theorem validLoop_cons (m b : Nat) (rest : GoString) :
    validLoop (m + 1) (b :: rest) =
      if b < RuneSelf then validLoop m rest
      else if (DecodeRune (b :: rest)).1 = RuneError ∧ (DecodeRune (b :: rest)).2 = 1 then false
      else validLoop m ((b :: rest).drop (DecodeRune (b :: rest)).2) := by
  rw [validLoop]

theorem scanString_quote (t : GoString) : scanString (0x22 :: t) = some ([], t) := by
  simp [scanString, scanStringFrom]

/-- The scanner accepts what `appendString` writes for valid UTF-8. -/
theorem scanString_appendStringLoop (n : Nat) :
    ∀ (s : GoString) (m : Nat), s.length ≤ n → s.length ≤ m → validLoop m s = true →
      ∀ t, scanString (appendStringLoop n s ++ 0x22 :: t) = some (appendStringLoop n s, t) := by
  induction n with
  | zero =>
    intro s m hn _ _ t
    have : s = [] := List.length_eq_zero.mp (Nat.le_zero.mp hn)
    subst this
    simp [appendStringLoop, scanString_quote]
  | succ n ih =>
    intro s m hn hm hv t
    match s, m with
    | [], _ => simp [appendStringLoop, scanString_quote]
    | b :: rest, 0 => simp at hm
    | b :: rest, m + 1 =>
      rw [validLoop_cons] at hv
      rw [appendStringLoop_cons]
      simp only [List.length_cons, Nat.add_le_add_iff_right] at hn hm
      by_cases hb : b < RuneSelf
      · simp only [hb, if_true] at hv ⊢
        have ih' := ih rest m hn hm hv t
        by_cases hs : htmlSafeSet b = true
        · simp only [hs, if_true]
          have hp := htmlSafe_plain hs
          have := scanString_plain [b] _ _ _ (by
            intro c hc
            rw [List.mem_singleton] at hc
            subst hc
            exact ⟨hp.1, hp.2.1, hp.2.2.1⟩) ih'
          simpa using this
        · simp only [hs, if_false, Bool.false_eq_true]
          have := scanString_escapeByte b _ _ _ hb ih'
          simpa using this
      · simp only [hb, if_false] at hv ⊢
        by_cases hd : (DecodeRune (b :: rest)).1 = RuneError ∧ (DecodeRune (b :: rest)).2 = 1
        · simp [hd] at hv
        simp only [hd, if_false] at hv ⊢
        obtain ⟨_, h2, h3, h4, _⟩ := DecodeRune_valid b rest hb hd
        have hlen : ((b :: rest).drop (DecodeRune (b :: rest)).2).length ≤ n := by
          simp only [List.length_drop, List.length_cons] at h3 ⊢
          omega
        have hlen' : ((b :: rest).drop (DecodeRune (b :: rest)).2).length ≤ m := by
          simp only [List.length_drop, List.length_cons] at h3 ⊢
          omega
        have ih' := ih _ m hlen hlen' hv t
        by_cases hu : (DecodeRune (b :: rest)).1 = 0x2028 ∨ (DecodeRune (b :: rest)).1 = 0x2029
        · simp only [hu, if_true]
          have hh : isHex (hex ((DecodeRune (b :: rest)).1 % 16)) = true := by
            rcases hu with hu | hu <;> rw [hu] <;> decide
          have h30 : isHex 0x30 = true := by decide
          have h32 : isHex 0x32 = true := by decide
          unfold scanString at ih' ⊢
          simp [scanStringFrom, hh, h30, h32, ih']
        · simp only [hu, if_false]
          rw [List.append_assoc]
          exact scanString_plain _ _ _ _ (fun c hc => by
            have := h4 c hc
            omega) ih'

theorem unquoteLoop_cons (k c : Nat) (rest : GoString) :
    unquoteLoop (k + 1) (c :: rest) =
      match unquoteStep c rest with
      | none => none
      | some (out, n) => (unquoteLoop k ((c :: rest).drop n)).map fun t => out ++ t := by
  rw [unquoteLoop]

theorem unquoteStep_ascii (c : Nat) (rest : GoString) (h1 : 0x20 ≤ c) (h2 : c ≠ 0x22)
    (h3 : c ≠ 0x5C) (h4 : c < 0x80) : unquoteStep c rest = some ([c], 1) := by
  have e1 : ¬ (c = 0x22 ∨ c < 0x20) := by omega
  have e2 : c < RuneSelf := h4
  simp only [unquoteStep, h3, e1, e2, if_false, if_true]

theorem unquoteStep_rune (c : Nat) (rest : GoString) (h : ¬ c < RuneSelf) :
    unquoteStep c rest
      = some (EncodeRune (DecodeRune (c :: rest)).1, (DecodeRune (c :: rest)).2) := by
  have h' : ¬ c < 0x80 := h
  have e1 : ¬ (c = 0x22 ∨ c < 0x20) := by omega
  have e3 : ¬ c = 0x5C := by omega
  simp only [unquoteStep, e3, e1, h, if_false]

/-- Unquoting what `appendString` writes for valid UTF-8 gives the string back. -/
theorem unquoteLoop_appendStringLoop (n : Nat) :
    ∀ (s : GoString) (m k : Nat), s.length ≤ n → s.length ≤ m → validLoop m s = true →
      (appendStringLoop n s).length ≤ k → unquoteLoop k (appendStringLoop n s) = some s := by
  induction n with
  | zero =>
    intro s m k hn _ _ _
    have : s = [] := List.length_eq_zero.mp (Nat.le_zero.mp hn)
    subst this
    simp [appendStringLoop, unquoteLoop]
  | succ n ih =>
    intro s m k hn hm hv hk
    match s, m with
    | [], _ => simp [appendStringLoop, unquoteLoop]
    | b :: rest, 0 => simp at hm
    | b :: rest, m + 1 =>
      rw [validLoop_cons] at hv
      rw [appendStringLoop_cons] at hk ⊢
      simp only [List.length_cons, Nat.add_le_add_iff_right] at hn hm
      by_cases hb : b < RuneSelf
      · simp only [hb, if_true] at hv hk ⊢
        by_cases hs : htmlSafeSet b = true
        · simp only [hs, if_true, List.length_cons] at hk ⊢
          obtain ⟨k, rfl⟩ : ∃ k', k = k' + 1 := ⟨k - 1, by omega⟩
          have ih' := ih rest m k hn hm hv (by omega)
          have hp := htmlSafe_plain hs
          rw [unquoteLoop_cons, unquoteStep_ascii b _ hp.1 hp.2.1 hp.2.2.1 hp.2.2.2]
          simp [ih']
        · simp only [hs, if_false, Bool.false_eq_true, List.length_append] at hk ⊢
          have hl := escapeByte_length b
          obtain ⟨k, rfl⟩ : ∃ k', k = k' + 1 := ⟨k - 1, by omega⟩
          have ih' := ih rest m k hn hm hv (by omega)
          exact unquoteLoop_escapeByte b _ _ k hb ih'
      · simp only [hb, if_false] at hv hk ⊢
        by_cases hd : (DecodeRune (b :: rest)).1 = RuneError ∧ (DecodeRune (b :: rest)).2 = 1
        · simp [hd] at hv
        simp only [hd, if_false] at hv hk ⊢
        obtain ⟨h1, h2, h3, h4, h5⟩ := DecodeRune_valid b rest hb hd
        have hlen : ((b :: rest).drop (DecodeRune (b :: rest)).2).length ≤ n := by
          simp only [List.length_drop, List.length_cons] at h3 ⊢
          omega
        have hlen' : ((b :: rest).drop (DecodeRune (b :: rest)).2).length ≤ m := by
          simp only [List.length_drop, List.length_cons] at h3 ⊢
          omega
        by_cases hu : (DecodeRune (b :: rest)).1 = 0x2028 ∨ (DecodeRune (b :: rest)).1 = 0x2029
        · simp only [hu, if_true, List.length_append, List.length_cons, List.length_nil] at hk ⊢
          obtain ⟨k, rfl⟩ : ∃ k', k = k' + 1 := ⟨k - 1, by omega⟩
          have ih' := ih _ m k hlen hlen' hv (by omega)
          have hg : getu4 ([0x5C, 0x75, 0x32, 0x30, 0x32, hex ((DecodeRune (b :: rest)).1 % 16)]
              ++ appendStringLoop n ((b :: rest).drop (DecodeRune (b :: rest)).2))
              = some (DecodeRune (b :: rest)).1 := by
            rcases hu with hu | hu <;> rw [hu] <;> rfl
          have hsur : IsSurrogate (DecodeRune (b :: rest)).1 = false := by
            rcases hu with hu | hu <;> rw [hu] <;> decide
          rw [List.cons_append, unquoteLoop_cons]
          simp only [unquoteStep, if_true, List.head?_cons, List.cons_append, List.nil_append]
          have e1 : ¬ ((0x75 : Nat) = 0x22 ∨ (0x75 : Nat) = 0x5C ∨ (0x75 : Nat) = 0x2F
              ∨ (0x75 : Nat) = 0x27) := by decide
          simp only [List.cons_append, List.nil_append] at hg
          simp only [e1, if_false, unquoteU, hg, hsur, Bool.false_eq_true,
            show ¬ (0x75 : Nat) = 0x62 by decide, show ¬ (0x75 : Nat) = 0x66 by decide,
            show ¬ (0x75 : Nat) = 0x6E by decide, show ¬ (0x75 : Nat) = 0x72 by decide,
            show ¬ (0x75 : Nat) = 0x74 by decide, if_true, List.drop_succ_cons, List.drop_zero,
            ih', Option.map_some', h1, List.take_append_drop]
        · simp only [hu, if_false, List.length_append] at hk ⊢
          have htl : ((b :: rest).take (DecodeRune (b :: rest)).2).length
              = (DecodeRune (b :: rest)).2 := by
            rw [List.length_take]
            omega
          obtain ⟨k, rfl⟩ : ∃ k', k = k' + 1 := ⟨k - 1, by omega⟩
          have ih' := ih _ m k hlen hlen' hv (by omega)
          have hsplit : (b :: rest).take (DecodeRune (b :: rest)).2
              = b :: rest.take ((DecodeRune (b :: rest)).2 - 1) := by
            obtain ⟨j, hj⟩ : ∃ j, (DecodeRune (b :: rest)).2 = j + 1 :=
              ⟨(DecodeRune (b :: rest)).2 - 1, by omega⟩
            rw [hj]
            simp
          have hdec := h5 (appendStringLoop n ((b :: rest).drop (DecodeRune (b :: rest)).2))
          rw [hsplit, List.cons_append] at hdec
          have hdrop : (b :: (rest.take ((DecodeRune (b :: rest)).2 - 1)
              ++ appendStringLoop n ((b :: rest).drop (DecodeRune (b :: rest)).2))).drop
                (DecodeRune (b :: rest)).2
              = appendStringLoop n ((b :: rest).drop (DecodeRune (b :: rest)).2) := by
            rw [← List.cons_append, ← hsplit]
            exact List.drop_left' htl
          conv_lhs => rw [hsplit, List.cons_append, unquoteLoop_cons, unquoteStep_rune _ _ hb]
          simp only [hdec, hdrop, ih', Option.map_some', h1, List.take_append_drop]

/-! ## `unquoteBytes`: the two loops agree -/

theorem DecodeRune_size (c : Nat) (rest : GoString) :
    1 ≤ (DecodeRune (c :: rest)).2 ∧ (DecodeRune (c :: rest)).2 ≤ (c :: rest).length := by
  by_cases hc : c < RuneSelf
  · simp [DecodeRune, hc]
  · rcases DecodeRune_spec c rest hc with h | ⟨b1, r1, rfl, _, _, _, _, h⟩
      | ⟨b1, b2, r2, rfl, _, _, _, _, _, _, _, _, h⟩
      | ⟨b1, b2, b3, r3, rfl, _, _, _, _, _, _, _, _, _, _, h⟩ <;> rw [h] <;>
      simp only [List.length_cons] <;> omega

theorem unquoteStep_pos {c : Nat} {rest out : GoString} {n : Nat}
    (h : unquoteStep c rest = some (out, n)) : 1 ≤ n := by
  unfold unquoteStep at h
  split_ifs at h with h1 h2 h3
  · cases hh : rest.head? with
    | none => simp [hh] at h
    | some e =>
      simp only [hh] at h
      split_ifs at h
      all_goals first
        | (simp only [Option.some.injEq, Prod.mk.injEq] at h; omega)
        | skip
      unfold unquoteU at h
      split at h
      · simp at h
      · split_ifs at h
        · split at h <;> simp only [Option.some.injEq, Prod.mk.injEq] at h <;> omega
        · simp only [Option.some.injEq, Prod.mk.injEq] at h; omega
  · simp only [Option.some.injEq, Prod.mk.injEq] at h; omega
  · simp only [Option.some.injEq, Prod.mk.injEq] at h
    have := (DecodeRune_size c rest).1
    omega

theorem unquoteLoop_fuel (f1 : Nat) :
    ∀ (f2 : Nat) (s : GoString), s.length ≤ f1 → s.length ≤ f2 →
      unquoteLoop f1 s = unquoteLoop f2 s := by
  induction f1 with
  | zero =>
    intro f2 s h1 _
    have : s = [] := List.length_eq_zero.mp (Nat.le_zero.mp h1)
    subst this
    simp [unquoteLoop]
  | succ f1 ih =>
    intro f2 s h1 h2
    match s, f2 with
    | [], _ => simp [unquoteLoop]
    | c :: rest, 0 => simp at h2
    | c :: rest, f2 + 1 =>
      rw [unquoteLoop_cons, unquoteLoop_cons]
      cases hs : unquoteStep c rest with
      | none => rfl
      | some r =>
        obtain ⟨out, n⟩ := r
        have hn := unquoteStep_pos hs
        simp only
        rw [ih f2 _ (by simp only [List.length_drop, List.length_cons] at h1 ⊢; omega)
          (by simp only [List.length_drop, List.length_cons] at h2 ⊢; omega)]

theorem unquoteScan_cons (fuel c : Nat) (rest : GoString) :
    unquoteScan (fuel + 1) (c :: rest) =
      if c = 0x5C ∨ c = 0x22 ∨ c < 0x20 then 0
      else if c < RuneSelf then 1 + unquoteScan fuel rest
      else if (DecodeRune (c :: rest)).1 = RuneError ∧ (DecodeRune (c :: rest)).2 = 1 then 0
      else (DecodeRune (c :: rest)).2
        + unquoteScan fuel ((c :: rest).drop (DecodeRune (c :: rest)).2) := by
  rw [unquoteScan]

/-- The second loop of `unquoteBytes` copies what the first loop skips. -/
theorem unquoteLoop_scan (fuel : Nat) :
    ∀ (s : GoString) (f : Nat), s.length ≤ fuel → s.length ≤ f →
      unquoteLoop f s
        = (unquoteLoop f (s.drop (unquoteScan fuel s))).map fun t =>
            s.take (unquoteScan fuel s) ++ t := by
  induction fuel with
  | zero =>
    intro s f h1 _
    have : s = [] := List.length_eq_zero.mp (Nat.le_zero.mp h1)
    subst this
    simp [unquoteLoop, unquoteScan]
  | succ fuel ih =>
    intro s f h1 h2
    match s, f with
    | [], _ => simp [unquoteLoop, unquoteScan]
    | c :: rest, 0 => simp at h2
    | c :: rest, f + 1 =>
      simp only [List.length_cons, Nat.add_le_add_iff_right] at h1 h2
      rw [unquoteScan_cons]
      by_cases h0 : c = 0x5C ∨ c = 0x22 ∨ c < 0x20
      · simp only [h0, if_true, List.drop_zero, List.take_zero, List.nil_append]
        cases unquoteLoop (f + 1) (c :: rest) <;> rfl
      simp only [h0, if_false]
      by_cases hc : c < RuneSelf
      · simp only [hc, if_true]
        have hc' : c < 0x80 := hc
        rw [show 1 + unquoteScan fuel rest = unquoteScan fuel rest + 1 by omega]
        simp only [List.drop_succ_cons, List.take_succ_cons]
        rw [unquoteLoop_cons, unquoteStep_ascii c rest (by omega) (by omega) (by omega) hc']
        simp only [List.drop_succ_cons, List.drop_zero]
        rw [ih rest f h1 h2]
        rw [unquoteLoop_fuel (f + 1) f _ (by simp only [List.length_drop]; omega)
          (by simp only [List.length_drop]; omega)]
        cases unquoteLoop f (List.drop (unquoteScan fuel rest) rest) <;> simp
      · simp only [hc, if_false]
        by_cases hd : (DecodeRune (c :: rest)).1 = RuneError ∧ (DecodeRune (c :: rest)).2 = 1
        · simp only [hd, and_self, if_true, List.drop_zero, List.take_zero, List.nil_append]
          cases unquoteLoop (f + 1) (c :: rest) <;> rfl
        simp only [hd, if_false]
        obtain ⟨g1, g2, g3, _, _⟩ := DecodeRune_valid c rest hc hd
        have hl1 : ((c :: rest).drop (DecodeRune (c :: rest)).2).length ≤ fuel := by
          simp only [List.length_drop, List.length_cons] at g3 ⊢; omega
        have hl2 : ((c :: rest).drop (DecodeRune (c :: rest)).2).length ≤ f := by
          simp only [List.length_drop, List.length_cons] at g3 ⊢; omega
        conv_lhs => rw [unquoteLoop_cons, unquoteStep_rune c rest hc]
        simp only
        rw [ih _ f hl1 hl2, g1, ← List.drop_drop, List.take_add]
        rw [unquoteLoop_fuel (f + 1) f _ (by simp only [List.length_drop] at hl2 ⊢; omega)
          (by simp only [List.length_drop] at hl2 ⊢; omega)]
        cases unquoteLoop f (List.drop (unquoteScan fuel (List.drop (DecodeRune (c :: rest)).2
          (c :: rest))) (List.drop (DecodeRune (c :: rest)).2 (c :: rest))) <;> simp

theorem unquote_eq (raw : GoString) : unquote raw = unquoteLoop raw.length raw := by
  have h := unquoteLoop_scan raw.length raw raw.length le_rfl le_rfl
  unfold unquote
  simp only
  split_ifs with hr
  · rw [h, hr]
    simp [unquoteLoop]
  · rw [h]

/-! ## Plain strings and objects of two members -/

/-- The first loop of `unquoteBytes` runs to the end of a valid UTF-8 string
without quote, backslash or control character. -/
theorem unquoteScan_plain (n : Nat) :
    ∀ (p : GoString) (m : Nat), p.length ≤ n → p.length ≤ m → validLoop m p = true →
      (∀ b ∈ p, 0x20 ≤ b ∧ b ≠ 0x22 ∧ b ≠ 0x5C) → unquoteScan n p = p.length := by
  induction n with
  | zero =>
    intro p m h1 _ _ _
    have : p = [] := List.length_eq_zero.mp (Nat.le_zero.mp h1)
    subst this
    simp [unquoteScan]
  | succ n ih =>
    intro p m h1 h2 hv hp
    match p, m with
    | [], _ => simp [unquoteScan]
    | c :: rest, 0 => simp at h2
    | c :: rest, m + 1 =>
      simp only [List.length_cons, Nat.add_le_add_iff_right] at h1 h2
      have hc := hp c (List.mem_cons_self _ _)
      have h0 : ¬ (c = 0x5C ∨ c = 0x22 ∨ c < 0x20) := by omega
      rw [validLoop_cons] at hv
      rw [unquoteScan_cons]
      simp only [h0, if_false]
      by_cases hb : c < RuneSelf
      · simp only [hb, if_true] at hv ⊢
        rw [ih rest m h1 h2 hv fun b hb' => hp b (List.mem_cons_of_mem _ hb')]
        simp only [List.length_cons]
        omega
      · simp only [hb, if_false] at hv ⊢
        by_cases hd : (DecodeRune (c :: rest)).1 = RuneError ∧ (DecodeRune (c :: rest)).2 = 1
        · simp [hd] at hv
        simp only [hd, if_false] at hv ⊢
        obtain ⟨_, g2, g3, _, _⟩ := DecodeRune_valid c rest hb hd
        rw [ih _ m (by simp only [List.length_drop, List.length_cons] at g3 ⊢; omega)
          (by simp only [List.length_drop, List.length_cons] at g3 ⊢; omega) hv
          fun b hb' => hp b (List.mem_of_mem_drop hb')]
        simp only [List.length_drop, List.length_cons] at g3 ⊢
        omega

theorem jsonPlain_spec {p : GoString} (h : jsonPlain p = true) :
    ValidString p = true ∧ ∀ b ∈ p, 0x20 ≤ b ∧ b ≠ 0x22 ∧ b ≠ 0x5C := by
  simp only [jsonPlain, Bool.and_eq_true, List.all_eq_true, decide_eq_true_eq] at h
  exact h

theorem scanString_jsonPlain {p : GoString} (h : jsonPlain p = true) (t : GoString) :
    scanString (p ++ 0x22 :: t) = some (p, t) := by
  have := scanString_plain p (0x22 :: t) [] t (jsonPlain_spec h).2 (scanString_quote t)
  simpa using this

theorem unquote_jsonPlain {p : GoString} (h : jsonPlain p = true) : unquote p = some p := by
  obtain ⟨hv, hp⟩ := jsonPlain_spec h
  have := unquoteScan_plain p.length p p.length le_rfl le_rfl hv hp
  simp only [unquote, this, if_true]

theorem scanString_appendString {s : GoString} (h : ValidString s = true) (t : GoString) :
    scanString (appendStringLoop s.length s ++ 0x22 :: t)
      = some (appendStringLoop s.length s, t) :=
  scanString_appendStringLoop s.length s s.length le_rfl le_rfl h t

theorem unquote_appendString {s : GoString} (h : ValidString s = true) :
    unquote (appendStringLoop s.length s) = some s := by
  rw [unquote_eq]
  exact unquoteLoop_appendStringLoop s.length s s.length _ le_rfl le_rfl h le_rfl

/-- The parser on an object of two members whose keys and values are string
literals the scanner accepts. -/
theorem parseObject_two (f depth : Nat) (hf : 3 ≤ f) (k1 v1 k2 v2 tail : GoString)
    (hk1 : ∀ t, scanString (k1 ++ 0x22 :: t) = some (k1, t))
    (hv1 : ∀ t, scanString (v1 ++ 0x22 :: t) = some (v1, t))
    (hk2 : ∀ t, scanString (k2 ++ 0x22 :: t) = some (k2, t))
    (hv2 : ∀ t, scanString (v2 ++ 0x22 :: t) = some (v2, t)) :
    parseObject f depth true
        (0x22 :: (k1 ++ 0x22 :: 0x3A :: 0x22 :: (v1 ++ 0x22 :: 0x2C :: 0x22 ::
          (k2 ++ 0x22 :: 0x3A :: 0x22 :: (v2 ++ 0x22 :: 0x7D :: tail)))))
      = some ([(k1, .string v1), (k2, .string v2)], tail) := by
  obtain ⟨f, rfl⟩ : ∃ f', f = f' + 1 + 1 + 1 := ⟨f - 3, by omega⟩
  have s1 : ∀ X : GoString, skipSpace (0x3A :: X) = 0x3A :: X := fun _ => rfl
  have s2 : ∀ X : GoString, skipSpace (0x22 :: X) = 0x22 :: X := fun _ => rfl
  have s3 : ∀ X : GoString, skipSpace (0x2C :: X) = 0x2C :: X := fun _ => rfl
  have s4 : ∀ X : GoString, skipSpace (0x7D :: X) = 0x7D :: X := fun _ => rfl
  have pv : ∀ (g d : Nat) (v X : GoString), (∀ t, scanString (v ++ 0x22 :: t) = some (v, t)) →
      parseValue (g + 1) d (0x22 :: (v ++ 0x22 :: X)) = some (.string v, X) := by
    intro g d v X hv
    rw [parseValue]
    simp [hv]
  rw [parseObject]
  simp only [show ¬ ((0x22 : Nat) = 0x7D) by decide, and_false, if_false, if_true, hk1, s1, s2,
    pv (f + 1) depth v1 _ hv1, s3]
  rw [parseObject]
  simp only [show ¬ ((0x22 : Nat) = 0x7D) by decide, and_false, if_false, if_true, hk2, s1, s2,
    s4]
  simp [pv f depth v2 _ hv2, s4]

/-! ## The payload -/

theorem storeMembers_two (n1 n2 k1 v1 k2 v2 x1 x2 : GoString) (hk1 : unquote k1 = some n1)
    (hk2 : unquote k2 = some n2) (hne : n2 ≠ n1) (hv1 : unquote v1 = some x1)
    (hv2 : unquote v2 = some x2) :
    storeMembers n1 n2 [(k1, .string v1), (k2, .string v2)] ⟨[], [], false⟩
      = ⟨x1, x2, false⟩ := by
  simp [storeMembers, fieldOf, hk1, hk2, hne, hv1, hv2]

theorem payloadOf_eq (proto port : GoString) :
    Server.payloadOf proto port
      = 0x7B :: 0x22 :: (str "protocol" ++ 0x22 :: 0x3A :: 0x22 :: (proto ++ 0x22 :: 0x2C :: 0x22 ::
          (str "port" ++ 0x22 :: 0x3A :: 0x22 :: (port ++ 0x22 :: 0x7D :: [])))) := by
  have e1 : str "\x7b\"protocol\":\"" = 0x7B :: 0x22 :: (str "protocol" ++ [0x22, 0x3A, 0x22]) := by
    decide
  have e2 : str "\",\"port\":\"" = 0x22 :: 0x2C :: 0x22 :: (str "port" ++ [0x22, 0x3A, 0x22]) := by
    decide
  have e3 : str "\"\x7d" = [0x22, 0x7D] := by decide
  simp only [Server.payloadOf, e1, e2, e3, List.cons_append, List.append_assoc, List.nil_append]

/-- The client's `json.Unmarshal` reads back the tag and the port of the
server's payload when both stand for themselves in a JSON string. -/
theorem Unmarshal_payloadOf (proto port : GoString) (hproto : jsonPlain proto = true)
    (hport : jsonPlain port = true) :
    Unmarshal (Server.payloadOf proto port) = { Protocol := proto, Port := port } := by
  rw [payloadOf_eq]
  have hk1 : jsonPlain (str "protocol") = true := by decide
  have hk2 : jsonPlain (str "port") = true := by decide
  have hobj := parseObject_two
    ((0x7B :: 0x22 :: (str "protocol" ++ 0x22 :: 0x3A :: 0x22 :: (proto ++ 0x22 :: 0x2C :: 0x22 ::
          (str "port" ++ 0x22 :: 0x3A :: 0x22 :: (port ++ 0x22 :: 0x7D :: []))))).length + 1) 1
    (by simp only [List.length_cons]; omega)
    (str "protocol") proto (str "port") port []
    (scanString_jsonPlain hk1) (scanString_jsonPlain hproto) (scanString_jsonPlain hk2)
    (scanString_jsonPlain hport)
  have hs := storeMembers_two (str "protocol") (str "port") (str "protocol") proto (str "port")
    port proto port (unquote_jsonPlain hk1) (unquote_jsonPlain hk2) (by decide)
    (unquote_jsonPlain hproto) (unquote_jsonPlain hport)
  have s0 : ∀ X : GoString, skipSpace (0x7B :: X) = 0x7B :: X := fun _ => rfl
  have s2 : ∀ X : GoString, skipSpace (0x22 :: X) = 0x22 :: X := fun _ => rfl
  have s3 : skipSpace [] = [] := rfl
  simp only [Unmarshal, s0, parseTop, if_true, s2, hobj, Option.map_some', s3, storeTop, hs]

/-! ## The message stream -/

theorem Encode_eq (m : Message) (rest : GoString) :
    Encode m ++ rest
      = 0x7B :: 0x22 :: (str "command" ++ 0x22 :: 0x3A :: 0x22 ::
          (appendStringLoop m.Command.length m.Command ++ 0x22 :: 0x2C :: 0x22 ::
            (str "payload" ++ 0x22 :: 0x3A :: 0x22 ::
              (appendStringLoop m.Payload.length m.Payload ++ 0x22 :: 0x7D :: 0x0A :: rest)))) := by
  have e1 : str "\x7b\"command\":" = 0x7B :: 0x22 :: (str "command" ++ [0x22, 0x3A]) := by decide
  have e2 : str ",\"payload\":" = 0x2C :: 0x22 :: (str "payload" ++ [0x22, 0x3A]) := by decide
  have e3 : str "\x7d\n" = [0x7D, 0x0A] := by decide
  simp only [Encode, appendString, e1, e2, e3, List.cons_append, List.append_assoc,
    List.nil_append]

/-- Decoding the encoding of a message of valid UTF-8 strings gives the
message back and leaves the newline `Encode` wrote. -/
theorem Decode_Encode (m : Message) (rest : GoString) (hc : ValidString m.Command = true)
    (hp : ValidString m.Payload = true) :
    Decode (Encode m ++ rest) = .ok (m, 0x0A :: rest) := by
  rw [Encode_eq]
  have hk1 : jsonPlain (str "command") = true := by decide
  have hk2 : jsonPlain (str "payload") = true := by decide
  have hobj := parseObject_two
    ((0x7B :: 0x22 :: (str "command" ++ 0x22 :: 0x3A :: 0x22 ::
          (appendStringLoop m.Command.length m.Command ++ 0x22 :: 0x2C :: 0x22 ::
            (str "payload" ++ 0x22 :: 0x3A :: 0x22 ::
              (appendStringLoop m.Payload.length m.Payload
                ++ 0x22 :: 0x7D :: 0x0A :: rest))))).length + 1) 1
    (by simp only [List.length_cons]; omega)
    (str "command") (appendStringLoop m.Command.length m.Command) (str "payload")
    (appendStringLoop m.Payload.length m.Payload) (0x0A :: rest)
    (scanString_jsonPlain hk1) (scanString_appendString hc) (scanString_jsonPlain hk2)
    (scanString_appendString hp)
  have hs := storeMembers_two (str "command") (str "payload") (str "command") _ (str "payload")
    _ m.Command m.Payload (unquote_jsonPlain hk1) (unquote_jsonPlain hk2) (by decide)
    (unquote_appendString hc) (unquote_appendString hp)
  have s0 : ∀ X : GoString, skipSpace (0x7B :: X) = 0x7B :: X := fun _ => rfl
  have s2 : ∀ X : GoString, skipSpace (0x22 :: X) = 0x22 :: X := fun _ => rfl
  simp only [Decode, s0, parseTop, if_true, s2, hobj, Option.map_some', storeTop, hs,
    Bool.false_eq_true, if_false]

theorem Decode_newline (s : GoString) : Decode (0x0A :: s) = Decode s := rfl

theorem encodeAll_length (msgs : List Message) : msgs.length ≤ (encodeAll msgs).length := by
  induction msgs with
  | nil => simp [encodeAll]
  | cons m ms ih =>
    have : 1 ≤ (Encode m).length := by
      have := Encode_eq m []
      rw [List.append_nil] at this
      rw [this]
      simp
    simp only [encodeAll, List.length_append, List.length_cons]
    omega

theorem decodeStream_encodeAll (msgs : List Message)
    (h : ∀ m ∈ msgs, ValidString m.Command = true ∧ ValidString m.Payload = true) :
    ∀ fuel, msgs.length + 1 ≤ fuel →
      Client.decodeStream fuel (encodeAll msgs) = msgs.map .ok ++ [.error .eof]
      ∧ Client.decodeStream fuel (0x0A :: encodeAll msgs) = msgs.map .ok ++ [.error .eof] := by
  induction msgs with
  | nil =>
    intro fuel hf
    obtain ⟨fuel, rfl⟩ : ∃ f, fuel = f + 1 := ⟨fuel - 1, by simp at hf; omega⟩
    exact ⟨rfl, rfl⟩
  | cons m ms ih =>
    intro fuel hf
    simp only [List.length_cons] at hf
    obtain ⟨fuel, rfl⟩ : ∃ f, fuel = f + 1 := ⟨fuel - 1, by omega⟩
    have hm := h m (List.mem_cons_self _ _)
    have ih' := (ih (fun x hx => h x (List.mem_cons_of_mem _ hx)) fuel (by omega)).2
    have hd := Decode_Encode m (encodeAll ms) hm.1 hm.2
    constructor
    · simp only [encodeAll, Client.decodeStream, hd, ih', List.map_cons, List.cons_append]
    · simp only [encodeAll, Client.decodeStream, Decode_newline, hd, ih', List.map_cons,
        List.cons_append]

/-! ## Valid UTF-8 and concatenation -/

theorem validLoop_fuel (f1 : Nat) :
    ∀ (f2 : Nat) (s : GoString), s.length ≤ f1 → s.length ≤ f2 →
      validLoop f1 s = validLoop f2 s := by
  induction f1 with
  | zero =>
    intro f2 s h1 _
    have : s = [] := List.length_eq_zero.mp (Nat.le_zero.mp h1)
    subst this
    simp [validLoop]
  | succ f1 ih =>
    intro f2 s h1 h2
    match s, f2 with
    | [], _ => simp [validLoop]
    | c :: rest, 0 => simp at h2
    | c :: rest, f2 + 1 =>
      simp only [List.length_cons, Nat.add_le_add_iff_right] at h1 h2
      rw [validLoop_cons, validLoop_cons]
      by_cases hc : c < RuneSelf
      · simp only [hc, if_true]
        exact ih f2 rest h1 h2
      · simp only [hc, if_false]
        split_ifs with hd
        · rfl
        · have hsz := DecodeRune_size c rest
          exact ih f2 _ (by simp only [List.length_drop, List.length_cons]; omega)
            (by simp only [List.length_drop, List.length_cons]; omega)

theorem validLoop_append (n : Nat) :
    ∀ (a : GoString) (f : Nat), a.length ≤ n → a.length ≤ f → validLoop f a = true →
      ∀ (b : GoString) (g k : Nat), b.length ≤ g → validLoop g b = true →
        (a ++ b).length ≤ k → validLoop k (a ++ b) = true := by
  induction n with
  | zero =>
    intro a f h1 _ _ b g k hg hb hk
    have : a = [] := List.length_eq_zero.mp (Nat.le_zero.mp h1)
    subst this
    rw [List.nil_append] at hk ⊢
    rw [validLoop_fuel k g b hk hg]
    exact hb
  | succ n ih =>
    intro a f h1 h2 ha b g k hg hb hk
    match a, f, k with
    | [], _, k =>
      rw [List.nil_append] at hk ⊢
      rw [validLoop_fuel k g b hk hg]
      exact hb
    | c :: rest, 0, _ => simp at h2
    | c :: rest, _ + 1, 0 => simp at hk
    | c :: rest, f + 1, k + 1 =>
      simp only [List.length_cons, Nat.add_le_add_iff_right, List.cons_append] at h1 h2 hk
      rw [validLoop_cons] at ha
      rw [List.cons_append, validLoop_cons]
      by_cases hc : c < RuneSelf
      · simp only [hc, if_true] at ha ⊢
        exact ih rest f h1 h2 ha b g k hg hb hk
      · simp only [hc, if_false] at ha ⊢
        by_cases hd : (DecodeRune (c :: rest)).1 = RuneError ∧ (DecodeRune (c :: rest)).2 = 1
        · simp [hd] at ha
        simp only [hd, if_false] at ha
        obtain ⟨_, g2, g3, _, g5⟩ := DecodeRune_valid c rest hc hd
        have hdec : DecodeRune (c :: (rest ++ b)) = DecodeRune (c :: rest) := by
          have := g5 ((c :: rest).drop (DecodeRune (c :: rest)).2 ++ b)
          rwa [← List.append_assoc, List.take_append_drop, List.cons_append] at this
        rw [hdec]
        simp only [hd, if_false]
        have hdrop : (c :: (rest ++ b)).drop (DecodeRune (c :: rest)).2
            = (c :: rest).drop (DecodeRune (c :: rest)).2 ++ b := by
          rw [← List.cons_append, List.drop_append_of_le_length g3]
        rw [hdrop]
        simp only [List.length_cons] at g3
        exact ih _ f (by simp only [List.length_drop, List.length_cons]; omega)
          (by simp only [List.length_drop, List.length_cons]; omega) ha b g k hg hb
          (by simp only [List.length_append, List.length_drop, List.length_cons] at hk ⊢; omega)

theorem ValidString_append {a b : GoString} (ha : ValidString a = true)
    (hb : ValidString b = true) : ValidString (a ++ b) = true :=
  validLoop_append a.length a a.length le_rfl le_rfl ha b b.length _ le_rfl hb le_rfl

theorem mapIndex_jsonPlain (m : List (GoString × GoString))
    (h : ∀ kv ∈ m, jsonPlain kv.2 = true) (key : GoString) :
    jsonPlain (mapIndex m key) = true := by
  unfold mapIndex
  induction m with
  | nil =>
    show jsonPlain [] = true
    decide
  | cons kv rest ih =>
    obtain ⟨k, v⟩ := kv
    have hv := h (k, v) (List.mem_cons_self _ _)
    have ih := ih fun x hx => h x (List.mem_cons_of_mem _ hx)
    simp only [List.lookup]
    split
    · exact hv
    · exact ih

/-! ## The WebSocket stream adapter -/

/-- Every `Read` returns the front of the pending bytes and leaves the rest
pending. -/
theorem wsConnWrapper.pending_Read (c : wsConnWrapper) (len avail : Nat) :
    c.pending = (c.Read len avail).1.1 ++ (c.Read len avail).2.pending := by
  obtain ⟨⟨frames, readErr⟩, r⟩ := c
  cases r with
  | some r =>
    obtain ⟨remaining, complete, err⟩ := r
    by_cases hr : remaining = []
    · subst hr
      simp only [wsConnWrapper.Read, FrameReader.Read, if_true, wsConnWrapper.pending]
      split_ifs <;> simp
    · simp only [wsConnWrapper.Read, FrameReader.Read, hr, if_false, wsConnWrapper.pending,
        reduceCtorEq]
      rw [← List.append_assoc, List.take_append_drop]
  | none =>
    cases frames with
    | nil => simp [wsConnWrapper.Read, WsConn.NextReader, wsConnWrapper.pending]
    | cons f rest =>
      obtain ⟨payload, complete⟩ := f
      by_cases hr : payload = []
      · subst hr
        simp only [wsConnWrapper.Read, WsConn.NextReader, FrameReader.Read, if_true,
          wsConnWrapper.pending]
        split_ifs <;> simp
      · simp only [wsConnWrapper.Read, WsConn.NextReader, FrameReader.Read, hr, if_false,
          wsConnWrapper.pending, reduceCtorEq, List.map_cons, List.flatten_cons,
          List.nil_append]
        rw [← List.append_assoc, List.take_append_drop]

theorem wsConnWrapper.readAll_prefix (calls : List (Nat × Nat)) :
    ∀ c : wsConnWrapper, ((c.readAll calls).map Prod.fst).flatten <+: c.pending := by
  induction calls with
  | nil =>
    intro c
    simp [wsConnWrapper.readAll]
  | cons call calls ih =>
    intro c
    obtain ⟨len, avail⟩ := call
    rw [wsConnWrapper.pending_Read c len avail]
    simp only [wsConnWrapper.readAll, List.map_cons, List.flatten_cons]
    exact (List.prefix_append_right_inj _).mpr (ih _)

/-! ## The UDP session table -/

/-- The invariant holds of the empty table. -/
theorem UdpState.Inv_init : UdpState.init.Inv := by
  refine ⟨?_, ?_, ?_, ?_⟩ <;> simp [UdpState.init]

/-- Every step keeps the invariant. -/
theorem UdpState.Inv_step {s s' : UdpState} (step : UdpStep) (h : s.Inv)
    (hs : udpStep s step = some s') : s'.Inv := by
  obtain ⟨h1, h2, h3, h4⟩ := h
  unfold udpStep at hs
  split_ifs at hs with hp
  simp only [Bool.not_eq_true] at hp
  have h4 := h4 hp
  cases step with
  | datagram src payload dialOk =>
    simp only at hs
    cases hl : s.sessions src with
    | some u =>
      cases u with
      | none => exact absurd hl (h4 src)
      | some c =>
        simp only [hl, Option.some.injEq] at hs
        subst hs
        exact ⟨h1, h2, h3, fun _ => h4⟩
    | none =>
      simp only [hl] at hs
      have hfresh : ∀ k, s.sessions k ≠ some (some s.dialed) := by
        intro k hk
        have := h2 k _ hk
        omega
      cases dialOk with
      | true =>
        simp only [if_true, Option.some.injEq] at hs
        subst hs
        refine ⟨?_, ?_, ?_, ?_⟩
        · intro k u
          simp only [List.mem_append, List.mem_singleton, Prod.mk.injEq]
          by_cases hk : k = src
          · subst hk
            simp only [if_true, Option.some.injEq, true_and]
            constructor
            · intro hu; exact Or.inr hu.symm
            · rintro (hu | hu)
              · have := (h1 k u).mpr hu
                rw [hl] at this
                cases this
              · exact hu.symm
          · simp only [hk, if_false, false_and, or_false]
            exact h1 k u
        · intro k c
          by_cases hk : k = src
          · subst hk
            simp only [if_true, Option.some.injEq]
            intro hc
            omega
          · simp only [hk, if_false]
            intro hc
            have := h2 k c hc
            omega
        · intro k1 k2 u
          by_cases hk1 : k1 = src <;> by_cases hk2 : k2 = src
          · intro _ _
            rw [hk1, hk2]
          · subst hk1
            simp only [if_true, hk2, if_false, Option.some.injEq]
            intro hc1 hc2
            subst hc1
            exact absurd hc2 (hfresh k2)
          · subst hk2
            simp only [if_true, hk1, if_false, Option.some.injEq]
            intro hc1 hc2
            subst hc2
            exact absurd hc1 (hfresh k1)
          · simp only [hk1, hk2, if_false]
            exact h3 k1 k2 u
        · intro _ k
          by_cases hk : k = src
          · simp [hk]
          · simp only [hk, if_false]
            exact h4 k
      | false =>
        simp only [Bool.false_eq_true, if_false, Option.some.injEq] at hs
        subst hs
        refine ⟨?_, ?_, ?_, ?_⟩
        · intro k u
          simp only [List.mem_append, List.mem_singleton, Prod.mk.injEq]
          by_cases hk : k = src
          · subst hk
            simp only [if_true, Option.some.injEq, true_and]
            constructor
            · intro hu; exact Or.inr hu.symm
            · rintro (hu | hu)
              · have := (h1 k u).mpr hu
                rw [hl] at this
                cases this
              · exact hu.symm
          · simp only [hk, if_false, false_and, or_false]
            exact h1 k u
        · intro k c
          by_cases hk : k = src
          · simp [hk]
          · simp only [hk, if_false]
            exact h2 k c
        · intro k1 k2 u
          by_cases hk1 : k1 = src <;> by_cases hk2 : k2 = src
          · intro _ _
            rw [hk1, hk2]
          · subst hk1
            simp only [if_true, hk2, if_false, Option.some.injEq]
            intro hc1 hc2
            subst hc1
            exact absurd hc2 (h4 k2)
          · subst hk2
            simp only [if_true, hk1, if_false, Option.some.injEq]
            intro hc1 hc2
            subst hc2
            exact absurd hc1 (h4 k1)
          · simp only [hk1, hk2, if_false]
            exact h3 k1 k2 u
        · intro hf
          simp at hf
  | readData src rconn data =>
    simp only at hs
    split_ifs at hs with hm
    simp only [Option.some.injEq] at hs
    subst hs
    exact ⟨h1, h2, h3, fun _ => h4⟩
  | readError src rconn =>
    simp only at hs
    split_ifs at hs with hm
    simp only [Option.some.injEq] at hs
    subst hs
    have hown := (h1 src (some rconn)).mpr hm
    refine ⟨?_, ?_, ?_, ?_⟩
    · intro k u
      simp only [List.mem_filter, decide_eq_true_eq, ne_eq, Prod.mk.injEq, not_and]
      by_cases hk : k = src
      · subst hk
        simp only [if_true, reduceCtorEq, false_iff, not_and, not_forall, Classical.not_imp,
          not_not, true_implies]
        intro hu
        have := (h1 k u).mpr hu
        rw [hown] at this
        simp only [Option.some.injEq] at this
        exact this.symm
      · simp only [hk, if_false, false_implies, and_true]
        exact h1 k u
    · intro k c
      by_cases hk : k = src
      · simp [hk]
      · simp only [hk, if_false]
        exact h2 k c
    · intro k1 k2 u
      by_cases hk1 : k1 = src
      · simp [hk1]
      by_cases hk2 : k2 = src
      · simp [hk2]
      simp only [hk1, hk2, if_false]
      exact h3 k1 k2 u
    · intro _ k
      by_cases hk : k = src
      · simp [hk]
      · simp only [hk, if_false]
        exact h4 k

/-- Every run keeps the invariant. -/
theorem UdpState.Inv_run (steps : List UdpStep) :
    ∀ s s' : UdpState, s.Inv → udpRun s steps = some s' → s'.Inv := by
  induction steps with
  | nil =>
    intro s s' h hr
    simp only [udpRun, Option.some.injEq] at hr
    subst hr
    exact h
  | cons step rest ih =>
    intro s s' h hr
    simp only [udpRun] at hr
    cases hs : udpStep s step with
    | none => simp [hs] at hr
    | some s1 =>
      simp only [hs] at hr
      exact ih s1 s' (UdpState.Inv_step step h hs) hr

/-! ## The claims -/

namespace Server

/-- C1. The menu of the server's `handleControlConnection`: with `choice` the
operator's line after `strings.TrimSpace`, each of the inputs `1` to `8`
starts exactly the listener of its transport (tcp, udp, ws, tcpmux, wsmux,
wss, wssmux, utcpmux) and writes exactly one message, whose command is
`start_transport` and whose payload carries the tag and the port found in
`DataPorts` under `TCP`, `UDP`, `WS`, `TCPMux`, `WSMux`, `WSS`, `WSSMux`,
`UTCPMux`; then the goroutine parks.  Any other input starts no listener and
writes nothing: the connection is closed and the process exits with status 1. -/
theorem handleControlConnection_menu (config : ServerConfig) (stdin : GoString) :
    let choice := TrimSpace (ReadString stdin)
    let sent := fun (t : Transport) (proto key : GoString) =>
      [Event.goListener t,
       Event.connWrite (Encode { Command := str "start_transport",
                                 Payload := payloadOf proto (mapIndex config.DataPorts key) }),
       Event.park]
    (choice = str "1" → handleControlConnection config stdin = sent .tcp (str "tcp") (str "TCP"))
    ∧ (choice = str "2" → handleControlConnection config stdin = sent .udp (str "udp") (str "UDP"))
    ∧ (choice = str "3" → handleControlConnection config stdin = sent .ws (str "ws") (str "WS"))
    ∧ (choice = str "4" →
        handleControlConnection config stdin = sent .tcpmux (str "tcpmux") (str "TCPMux"))
    ∧ (choice = str "5" →
        handleControlConnection config stdin = sent .wsmux (str "wsmux") (str "WSMux"))
    ∧ (choice = str "6" → handleControlConnection config stdin = sent .wss (str "wss") (str "WSS"))
    ∧ (choice = str "7" →
        handleControlConnection config stdin = sent .wssmux (str "wssmux") (str "WSSMux"))
    ∧ (choice = str "8" →
        handleControlConnection config stdin = sent .utcpmux (str "utcpmux") (str "UTCPMux"))
    ∧ ((choice ≠ str "1" ∧ choice ≠ str "2" ∧ choice ≠ str "3" ∧ choice ≠ str "4"
          ∧ choice ≠ str "5" ∧ choice ≠ str "6" ∧ choice ≠ str "7" ∧ choice ≠ str "8") →
        handleControlConnection config stdin = [Event.connClose, Event.osExit 1]) := by
  intro choice sent
  have hc : TrimSpace (ReadString stdin) = choice := rfl
  refine ⟨?_, ?_, ?_, ?_, ?_, ?_, ?_, ?_, ?_⟩
  all_goals intro h
  · simp only [handleControlConnection, selectTransport, hc, h, sent]
    rfl
  · simp only [handleControlConnection, selectTransport, hc, h, sent]
    rfl
  · simp only [handleControlConnection, selectTransport, hc, h, sent]
    rfl
  · simp only [handleControlConnection, selectTransport, hc, h, sent]
    rfl
  · simp only [handleControlConnection, selectTransport, hc, h, sent]
    rfl
  · simp only [handleControlConnection, selectTransport, hc, h, sent]
    rfl
  · simp only [handleControlConnection, selectTransport, hc, h, sent]
    rfl
  · simp only [handleControlConnection, selectTransport, hc, h, sent]
    rfl
  · obtain ⟨h1, h2, h3, h4, h5, h6, h7, h8⟩ := h
    simp only [handleControlConnection, selectTransport, hc, h1, h2, h3, h4, h5, h6, h7, h8,
      if_false]

end Server

namespace Client

/-- C2. The client's `handleControlConnection` on a decoded message: the
forwarder started is decided by the protocol of the unmarshalled payload.  For
each of the eight tags exactly one forwarder is started, that of the tag's
transport, with exactly the decoded port; for any other protocol none is
started.  In both cases the loop goes on with the next `Decode`, and the
function returns (running its deferred `conn.Close()`) exactly when a `Decode`
fails. -/
theorem handleControlConnection_dispatch (msg : Message)
    (rest : List (Except DecodeError Message)) :
    handleControlConnection (.ok msg :: rest)
        = startForwarder (Unmarshal msg.Payload) ++ handleControlConnection rest
    ∧ (∀ t : Transport, (Unmarshal msg.Payload).Protocol = t.tag →
        startForwarder (Unmarshal msg.Payload)
          = [Event.goForwarder t (Unmarshal msg.Payload).Port])
    ∧ ((∀ t : Transport, (Unmarshal msg.Payload).Protocol ≠ t.tag) →
        startForwarder (Unmarshal msg.Payload) = [])
    ∧ returns (.ok msg :: rest) = returns rest
    ∧ (∀ decoded : List (Except DecodeError Message),
        (returns decoded = true ↔ ∃ e, Except.error e ∈ decoded)
        ∧ (Event.connClose ∈ handleControlConnection decoded ↔ returns decoded = true)) := by
  refine ⟨rfl, ?_, ?_, rfl, ?_⟩
  · intro t ht
    cases t <;> simp only [startForwarder, ht, Transport.tag] <;> rfl
  · intro h
    have h1 := h .tcp
    have h2 := h .udp
    have h3 := h .ws
    have h4 := h .tcpmux
    have h5 := h .wsmux
    have h6 := h .wss
    have h7 := h .wssmux
    have h8 := h .utcpmux
    simp only [Transport.tag] at h1 h2 h3 h4 h5 h6 h7 h8
    simp only [startForwarder, h1, h2, h3, h4, h5, h6, h7, h8, if_false]
  · intro decoded
    induction decoded with
    | nil => simp [returns, handleControlConnection]
    | cons r tl ih =>
      cases r with
      | error e => simp [returns, handleControlConnection]
      | ok m =>
        obtain ⟨ih1, ih2⟩ := ih
        constructor
        · simp only [returns, ih1, List.mem_cons]
          constructor
          · rintro ⟨e, he⟩
            exact ⟨e, Or.inr he⟩
          · rintro ⟨e, he | he⟩
            · cases he
            · exact ⟨e, he⟩
        · simp only [returns, handleControlConnection, List.mem_append, ← ih2]
          constructor
          · rintro (h | h)
            · exfalso
              revert h
              simp only [startForwarder]
              split_ifs <;> simp
            · exact h
          · intro h
            exact Or.inr h

/-- C5 as stated fails: a message whose command is not `start_transport` but
whose payload names the protocol `tcp` starts the TCP forwarder. -/
theorem unknown_command_starts_forwarder :
    ¬ (∀ msg : Message, msg.Command ≠ str "start_transport" →
        ∀ rest, handleControlConnection (.ok msg :: rest) = handleControlConnection rest) := by
  intro h
  have h1 := h { Command := str "noop", Payload := Server.payloadOf (str "tcp") (str "9001") }
    (by decide) []
  revert h1
  decide

/-- C5, amended. The command of a message is never inspected: two messages
with the same payload are handled alike whatever their commands, the
forwarder started is the one the payload's protocol selects (none when the
protocol is none of the eight tags), and the loop goes on with the next
message. -/
theorem command_not_inspected (command command' payload : GoString)
    (rest : List (Except DecodeError Message)) :
    handleControlConnection (.ok { Command := command, Payload := payload } :: rest)
        = handleControlConnection (.ok { Command := command', Payload := payload } :: rest)
    ∧ handleControlConnection (.ok { Command := command, Payload := payload } :: rest)
        = startForwarder (Unmarshal payload) ++ handleControlConnection rest
    ∧ ((∀ t : Transport, (Unmarshal payload).Protocol ≠ t.tag) →
        handleControlConnection (.ok { Command := command, Payload := payload } :: rest)
          = handleControlConnection rest) := by
  refine ⟨rfl, rfl, ?_⟩
  intro h
  have h1 := h .tcp
  have h2 := h .udp
  have h3 := h .ws
  have h4 := h .tcpmux
  have h5 := h .wsmux
  have h6 := h .wss
  have h7 := h .wssmux
  have h8 := h .utcpmux
  simp only [Transport.tag] at h1 h2 h3 h4 h5 h6 h7 h8
  simp only [handleControlConnection, startForwarder, h1, h2, h3, h4, h5, h6, h7, h8, if_false,
    List.nil_append]

end Client

/-- C3. The code fails the claim with the port `1","protocol":"udp` configured
under `TCP` and the operator's line `1`.  The `switch` selects the tag `tcp`
and that port; `fmt.Sprintf` writes the port into the payload as it is, so
the payload names the protocol twice; the client's `json.Unmarshal` keeps the
last one and decodes the protocol `udp` with the port `1`, not the tag `tcp`
with the configured port; and the client that reads the `start_transport`
message with this payload starts the UDP forwarder with port `1`.  On the
server the listener of this choice gets an error from `net.Listen` at such an
address, registers the nil listener and panics. -/
theorem payload_port_not_escaped :
    let port : GoString := str "1\",\"protocol\":\"udp"
    let config : ServerConfig :=
      { ControlPort := str "7000",
        DataPorts := [(str "TCP", port)],
        XrayInboundAddress := [], TlsCertPath := [], TlsKeyPath := [],
        KcpConfig := ⟨0, 0, 0, 0, 0, 0, 0, 0⟩ }
    let net : Server.Net :=
      { Listen := fun address =>
          if address = str "0.0.0.0:" ++ port then .error (.other 22) else .ok 1,
        ListenUDP := fun _ => .ok 2,
        ListenWithOptions := fun _ => .ok 3,
        nilCall := .panics }
    Server.selectTransport config (TrimSpace (ReadString (str "1\n")))
        = some (str "tcp", port, .tcp)
    ∧ Server.payloadOf (str "tcp") port
        = str "\x7b\"protocol\":\"tcp\",\"port\":\"1\",\"protocol\":\"udp\"\x7d"
    ∧ Unmarshal (Server.payloadOf (str "tcp") port) = { Protocol := str "udp", Port := str "1" }
    ∧ Unmarshal (Server.payloadOf (str "tcp") port) ≠ { Protocol := str "tcp", Port := port }
    ∧ Client.handleControlConnection (Client.decodeAll (Encode
           { Command := str "start_transport", Payload := Server.payloadOf (str "tcp") port }))
        = [Client.Event.goForwarder .udp (str "1"), Client.Event.connClose]
    ∧ Server.startDataListener .tcp config net 0 [] [.listener 0]
        = ([.listener 0, .nilInterface],
           [.listen (str "0.0.0.0:" ++ port), .addListener .nilInterface, .panic]) := by
  refine ⟨by decide, by decide, by decide, by decide, ?_, by decide⟩
  decide

/-- The menu entry behind a run of the server's `handleControlConnection` that
started a listener. -/
theorem handleControlConnection_started (config : ServerConfig) (stdin bytes : GoString)
    (t : Transport)
    (hrun : Server.handleControlConnection config stdin
      = [Server.Event.goListener t, Server.Event.connWrite bytes, Server.Event.park]) :
    bytes = Encode { Command := str "start_transport",
                     Payload := Server.payloadOf t.tag (mapIndex config.DataPorts t.portKey) } := by
  simp only [Server.handleControlConnection] at hrun
  cases hsel : Server.selectTransport config (TrimSpace (ReadString stdin)) with
  | none => simp [hsel] at hrun
  | some x =>
    obtain ⟨proto, port, t'⟩ := x
    simp only [hsel, List.cons.injEq, Server.Event.goListener.injEq,
      Server.Event.connWrite.injEq, and_true] at hrun
    obtain ⟨ht, hb⟩ := hrun
    subst ht hb
    unfold Server.selectTransport at hsel
    split_ifs at hsel
    all_goals simp only [Option.some.injEq, Prod.mk.injEq, reduceCtorEq] at hsel
    all_goals obtain ⟨rfl, rfl, rfl⟩ := hsel
    all_goals rfl

/-- When the port of the selected transport stands for itself in a JSON
string (valid UTF-8 without double quote, backslash or control character), a
run of the server's `handleControlConnection` that starts the listener of a
transport writes the `start_transport` message whose payload carries the tag
of that transport and its configured port; the client's `json.Unmarshal`
turns that payload into `TransportConfig` with that tag and that port, and
the client's `handleControlConnection`, reading the bytes the server wrote,
starts the forwarder of the same transport with that port. -/
theorem payload_agreement (config : ServerConfig) (stdin bytes : GoString) (t : Transport)
    (hport : jsonPlain (mapIndex config.DataPorts t.portKey) = true)
    (hrun : Server.handleControlConnection config stdin
      = [Server.Event.goListener t, Server.Event.connWrite bytes, Server.Event.park]) :
    bytes = Encode { Command := str "start_transport",
                     Payload := Server.payloadOf t.tag (mapIndex config.DataPorts t.portKey) }
    ∧ Unmarshal (Server.payloadOf t.tag (mapIndex config.DataPorts t.portKey))
        = { Protocol := t.tag, Port := mapIndex config.DataPorts t.portKey }
    ∧ Client.handleControlConnection (Client.decodeAll bytes)
        = [Client.Event.goForwarder t (mapIndex config.DataPorts t.portKey),
           Client.Event.connClose] := by
  have hb := handleControlConnection_started config stdin bytes t hrun
  have htag : jsonPlain t.tag = true := by cases t <;> decide
  have hu := Unmarshal_payloadOf t.tag _ htag hport
  refine ⟨hb, hu, ?_⟩
  have hvalid : ValidString (Server.payloadOf t.tag (mapIndex config.DataPorts t.portKey))
      = true := by
    unfold Server.payloadOf
    exact ValidString_append (ValidString_append (ValidString_append (ValidString_append
      (by decide) (jsonPlain_spec htag).1) (by decide)) (jsonPlain_spec hport).1) (by decide)
  have hdec := (decodeStream_encodeAll
    [{ Command := str "start_transport",
       Payload := Server.payloadOf t.tag (mapIndex config.DataPorts t.portKey) }]
    (by
      intro m hm
      rw [List.mem_singleton] at hm
      subst hm
      exact ⟨by show ValidString (str "start_transport") = true; decide, hvalid⟩) _
    (Nat.add_le_add_right (encodeAll_length _) 1)).1
  simp only [encodeAll, List.append_nil] at hdec
  rw [hb]
  unfold Client.decodeAll
  rw [hdec]
  simp only [List.map_cons, List.map_nil, List.cons_append, List.nil_append,
    Client.handleControlConnection, hu]
  cases t <;> rfl

/-- The agreement at the operator's line ` 4` with the port `9004` under
`TCPMux`. -/
theorem payload_agreement_witness :
    jsonPlain (mapIndex [(str "TCP", str "9001"), (str "TCPMux", str "9004")] (str "TCPMux"))
      = true
    ∧ Server.handleControlConnection
        { ControlPort := str "7000",
          DataPorts := [(str "TCP", str "9001"), (str "TCPMux", str "9004")],
          XrayInboundAddress := [], TlsCertPath := [], TlsKeyPath := [],
          KcpConfig := ⟨0, 0, 0, 0, 0, 0, 0, 0⟩ }
        (str " 4\n")
      = [Server.Event.goListener .tcpmux,
         Server.Event.connWrite (Encode
           { Command := str "start_transport",
             Payload := Server.payloadOf (str "tcpmux") (str "9004") }),
         Server.Event.park]
    ∧ Client.handleControlConnection (Client.decodeAll (Encode
          { Command := str "start_transport",
            Payload := Server.payloadOf (str "tcpmux") (str "9004") }))
      = [Client.Event.goForwarder .tcpmux (str "9004"), Client.Event.connClose] :=
  ⟨by decide, by decide,
    (payload_agreement
      { ControlPort := str "7000",
        DataPorts := [(str "TCP", str "9001"), (str "TCPMux", str "9004")],
        XrayInboundAddress := [], TlsCertPath := [], TlsKeyPath := [],
        KcpConfig := ⟨0, 0, 0, 0, 0, 0, 0, 0⟩ }
      (str " 4\n")
      (Encode { Command := str "start_transport",
                Payload := Server.payloadOf (str "tcpmux") (str "9004") })
      .tcpmux (by decide) (by decide)).2.2⟩

/-- C4 as stated fails: a command that is the single byte `0xFF` (a Go string
that is not valid UTF-8) comes back from `Decode (Encode msg)` as the three
bytes of U+FFFD. -/
theorem round_trip_invalid_utf8 :
    Decode (Encode { Command := [0xFF], Payload := [] })
      = .ok ({ Command := [0xEF, 0xBF, 0xBD], Payload := [] }, [0x0A])
    ∧ ({ Command := [0xEF, 0xBF, 0xBD], Payload := [] } : Message)
      ≠ { Command := [0xFF], Payload := [] } :=
  ⟨rfl, by decide⟩

/-- C4, amended. For every finite list of messages whose commands and
payloads are valid UTF-8, decoding with the client's stream decoder the
concatenation of the server's encodings gives the same messages, field for
field and in order, and then `io.EOF`; in particular `Decode (Encode msg)`
is `msg` for each of them. -/
theorem wire_round_trip (msgs : List Message)
    (h : ∀ m ∈ msgs, ValidString m.Command = true ∧ ValidString m.Payload = true) :
    Client.decodeAll (encodeAll msgs) = msgs.map .ok ++ [.error .eof]
    ∧ ∀ m ∈ msgs, Decode (Encode m) = .ok (m, [0x0A]) := by
  constructor
  · exact (decodeStream_encodeAll msgs h _
      (Nat.add_le_add_right (encodeAll_length msgs) 1)).1
  · intro m hm
    have := Decode_Encode m [] (h m hm).1 (h m hm).2
    rwa [List.append_nil] at this

/-- The amended C4 on two messages, the first with a payload that needs
escaping and a command outside ASCII. -/
theorem wire_round_trip_witness :
    (∀ m ∈ [({ Command := [0xC3, 0xA9], Payload := str "a\"b<c\n" } : Message),
            { Command := str "start_transport",
              Payload := Server.payloadOf (str "tcp") (str "9001") }],
        ValidString m.Command = true ∧ ValidString m.Payload = true)
    ∧ Client.decodeAll (encodeAll
          [({ Command := [0xC3, 0xA9], Payload := str "a\"b<c\n" } : Message),
           { Command := str "start_transport",
             Payload := Server.payloadOf (str "tcp") (str "9001") }])
      = [.ok { Command := [0xC3, 0xA9], Payload := str "a\"b<c\n" },
         .ok { Command := str "start_transport",
               Payload := Server.payloadOf (str "tcp") (str "9001") },
         .error .eof] :=
  ⟨by decide,
    (wire_round_trip
      [({ Command := [0xC3, 0xA9], Payload := str "a\"b<c\n" } : Message),
       { Command := str "start_transport",
         Payload := Server.payloadOf (str "tcp") (str "9001") }]
      (by decide)).1⟩

/-- C6 on the code: after a control connection that was lost (here: the peer
closes before sending anything, so the first `Decode` fails) the loop dials
again at once, with no `time.Sleep` between the two dials; the connection is
closed before the next dial, and after a failed dial the loop does sleep 5
seconds. -/
theorem main_redials_at_once :
    Client.main [.connected [.error .eof], .connected [.error .eof], .failed, .failed]
      = [.dial, .control .connClose, .dial, .control .connClose,
         .dial, .sleep 5, .dial, .sleep 5] := by
  decide

/-- C7 on the code: from the start of a relay session the spawned half-copy
can return while the holder is still blocked in its own `relayConnections`
and both endpoints are open; the endpoints are closed only after the
holder's own half-copy has returned. -/
theorem relay_spawned_done_holder_blocked :
    (∃ s, relayRun RelayState.init [.spawnedReturns] = some s
        ∧ s.spawnedDone = true ∧ s.holderBlocked = true ∧ s.bothOpen = true)
    ∧ relayRun RelayState.init [.spawnedReturns, .closeSecond] = none
    ∧ relayRun RelayState.init [.spawnedReturns, .closeFirst] = none
    ∧ (∃ s, relayRun RelayState.init
          [.spawnedReturns, .holderReturns, .closeSecond, .closeFirst] = some s
        ∧ s.holderBlocked = false ∧ s.bothOpen = false) :=
  ⟨⟨_, rfl, rfl, rfl, rfl⟩, rfl, rfl, ⟨_, rfl, rfl, rfl⟩⟩

/-- C8. `wsConnWrapper.Read` presents the frames as one ordered byte stream.
For every connection and every sequence of `Read` calls on a fresh wrapper,
the bytes the calls return, put together, are a prefix of the frame payloads
put together in frame order.  At the end of a frame `Read` returns no byte
and a nil error and resets the reader, and a `Read` with no reader starts on
the next frame.  `Read` returns an error only when `NextReader` fails or the
frame reader reports an error other than `io.EOF`. -/
theorem wsConnWrapper_Read_stream (conn : WsConn) (c : wsConnWrapper) :
    (∀ calls, (((({ Conn := conn, r := none } : wsConnWrapper).readAll calls).map
          Prod.fst).flatten) <+: (conn.frames.map Frame.payload).flatten)
    ∧ (∀ calls, ((c.readAll calls).map Prod.fst).flatten <+: c.pending)
    ∧ (∀ len avail r, c.r = some r → r.remaining = [] → r.complete = true →
        c.Read len avail = (([], none), { Conn := c.Conn, r := none }))
    ∧ (∀ len avail f rest, c.r = none → c.Conn.frames = f :: rest →
        (c.Read len avail).1.1 = f.payload.take (min len avail)
        ∧ (c.Read len avail).2.pending
            = f.payload.drop (min len avail) ++ (rest.map Frame.payload).flatten)
    ∧ (∀ len avail e, (c.Read len avail).1.2 = some e →
        (c.r = none ∧ c.Conn.NextReader = .error e)
        ∨ (∃ r conn', (c.r = some r ∨ (c.r = none ∧ c.Conn.NextReader = .ok (r, conn')))
            ∧ (r.Read len avail).1.2 = some e ∧ e ≠ .EOF)) := by
  refine ⟨fun calls => ?_, fun calls => wsConnWrapper.readAll_prefix calls c, ?_, ?_, ?_⟩
  · have := wsConnWrapper.readAll_prefix calls { Conn := conn, r := none }
    simpa [wsConnWrapper.pending] using this
  · intro len avail r hr hrem hc
    obtain ⟨conn, r'⟩ := c
    obtain ⟨remaining, complete, err⟩ := r
    simp only at hr hrem hc
    subst hr hrem hc
    simp [wsConnWrapper.Read, FrameReader.Read]
  · intro len avail f rest hr hf
    obtain ⟨⟨frames, readErr⟩, r'⟩ := c
    obtain ⟨payload, complete⟩ := f
    simp only at hr hf
    subst hr hf
    by_cases hp : payload = []
    · subst hp
      simp only [wsConnWrapper.Read, WsConn.NextReader, FrameReader.Read, if_true,
        wsConnWrapper.pending]
      split_ifs <;> simp
    · simp [wsConnWrapper.Read, WsConn.NextReader, FrameReader.Read, hp,
        wsConnWrapper.pending]
  · intro len avail e he
    obtain ⟨⟨frames, readErr⟩, r⟩ := c
    cases r with
    | some r =>
      right
      refine ⟨r, ⟨frames, readErr⟩, Or.inl rfl, ?_⟩
      simp only [wsConnWrapper.Read] at he
      split_ifs at he with h1
      exact ⟨he, fun h => h1 (by rw [he, h])⟩
    | none =>
      cases frames with
      | nil =>
        left
        simp only [wsConnWrapper.Read, WsConn.NextReader, Option.some.injEq] at he
        exact ⟨rfl, by simp [WsConn.NextReader, he]⟩
      | cons f rest =>
        right
        refine ⟨{ remaining := f.payload, complete := f.complete, err := readErr },
          ⟨rest, readErr⟩, Or.inr ⟨rfl, rfl⟩, ?_⟩
        simp only [wsConnWrapper.Read, WsConn.NextReader] at he
        split_ifs at he with h1
        exact ⟨he, fun h => h1 (by rw [he, h])⟩

/-- C9. The session table of the client's `startUdpDataForwarder`, in every
state `s` reachable by datagram, read and read-error steps.  While the
process runs, a datagram step is possible and leaves an entry for its source;
a datagram from a source already in the table leaves the table as it is and
is written to the upstream stored for it.  In every reachable state two
sources with the same upstream are the same source, and every entry's reader
was started and has not returned.  A reader that gets a read error finds its
own upstream under its source, removes that entry, closes that upstream and
is gone, and a datagram step changes the entry of its source only when there
was none.  A dial that fails for a new source stores the nil pointer and ends
the process in a panic with nothing written; after that there is no step;
while the process runs every entry holds a connection. -/
theorem udp_session_table (steps : List UdpStep) (s : UdpState)
    (hreach : udpRun UdpState.init steps = some s) :
    (s.panicked = false → ∀ src payload ok, ∃ s' u,
        udpStep s (.datagram src payload ok) = some s' ∧ s'.sessions src = some u)
    ∧ (s.panicked = false → ∀ src payload ok u, s.sessions src = some u →
        ∃ s', udpStep s (.datagram src payload ok) = some s'
          ∧ s'.sessions = s.sessions ∧ s'.readers = s.readers
          ∧ s'.written = s.written ++ [(u, payload)] ∧ s'.panicked = false)
    ∧ (∀ src1 src2 u, s.sessions src1 = some u → s.sessions src2 = some u → src1 = src2)
    ∧ (∀ src u, s.sessions src = some u → (src, u) ∈ s.readers)
    ∧ (∀ src rconn s', udpStep s (.readError src rconn) = some s' →
        s.sessions src = some (some rconn) ∧ s'.sessions src = none
        ∧ s'.closed = s.closed ++ [some rconn] ∧ (src, some rconn) ∉ s'.readers)
    ∧ (∀ src payload ok s', udpStep s (.datagram src payload ok) = some s' →
        s'.sessions src ≠ s.sessions src → s.sessions src = none)
    ∧ (s.panicked = false → ∀ src payload, s.sessions src = none →
        ∃ s', udpStep s (.datagram src payload false) = some s'
          ∧ s'.panicked = true ∧ s'.sessions src = some none ∧ s'.written = s.written)
    ∧ (s.panicked = true → ∀ step, udpStep s step = none)
    ∧ (s.panicked = false → ∀ src u, s.sessions src = some u → ∃ c, u = some c) := by
  obtain ⟨h1, _, h3, h4⟩ := UdpState.Inv_run steps _ _ UdpState.Inv_init hreach
  have hconn : s.panicked = false → ∀ src u, s.sessions src = some u → ∃ c, u = some c := by
    intro hp src u hu
    cases u with
    | none => exact absurd hu (h4 hp src)
    | some c => exact ⟨c, rfl⟩
  refine ⟨?_, ?_, h3, fun src u hu => (h1 src u).mp hu, ?_, ?_, ?_, ?_, hconn⟩
  · intro hp src payload ok
    cases hl : s.sessions src with
    | some u =>
      obtain ⟨c, rfl⟩ := hconn hp src u hl
      refine ⟨{ s with written := s.written ++ [(some c, payload)] }, some c, ?_, hl⟩
      simp only [udpStep, hp, hl, Bool.false_eq_true, if_false]
    | none =>
      cases ok with
      | true =>
        simp only [udpStep, hp, hl, Bool.false_eq_true, if_false, if_true]
        exact ⟨_, _, rfl, if_pos rfl⟩
      | false =>
        simp only [udpStep, hp, hl, Bool.false_eq_true, if_false]
        exact ⟨_, _, rfl, if_pos rfl⟩
  · intro hp src payload ok u hu
    obtain ⟨c, rfl⟩ := hconn hp src u hu
    refine ⟨{ s with written := s.written ++ [(some c, payload)] }, ?_, rfl, rfl, rfl, hp⟩
    simp only [udpStep, hp, hu, Bool.false_eq_true, if_false]
  · intro src rconn s' hs
    unfold udpStep at hs
    split_ifs at hs with hp
    simp only at hs
    split_ifs at hs with hm
    simp only [Option.some.injEq] at hs
    subst hs
    refine ⟨(h1 src (some rconn)).mpr hm, by simp, rfl, ?_⟩
    simp [List.mem_filter]
  · intro src payload ok s' hs hne
    cases hl : s.sessions src with
    | none => rfl
    | some u =>
      unfold udpStep at hs
      split_ifs at hs with hp
      simp only at hs
      cases u with
      | none =>
        simp only [hl, Option.some.injEq] at hs
        subst hs
        exact absurd rfl hne
      | some c =>
        simp only [hl, Option.some.injEq] at hs
        subst hs
        exact absurd rfl hne
  · intro hp src payload hl
    simp only [udpStep, hp, hl, Bool.false_eq_true, if_false]
    exact ⟨_, rfl, rfl, if_pos rfl, rfl⟩
  · intro hp step
    simp only [udpStep, hp, if_true]

/-- C9 on a run: datagrams from `A`, from `B` and from `A` again, a reply read
by the reader of `B`, a read error of the reader of `A`, and a new datagram
from `A`. -/
theorem udp_session_table_witness :
    ∃ s, udpRun UdpState.init
        [.datagram (str "A") (str "x") true, .datagram (str "B") (str "y") true,
         .datagram (str "A") (str "z") true, .readData (str "B") 1 (str "r"),
         .readError (str "A") 0, .datagram (str "A") (str "w") true] = some s
      ∧ s.sessions (str "A") = some (some 2) ∧ s.sessions (str "B") = some (some 1)
      ∧ s.closed = [some 0]
      ∧ s.written = [(some 0, str "x"), (some 1, str "y"), (some 0, str "z"), (some 2, str "w")]
      ∧ s.panicked = false
      ∧ (∀ src u, s.sessions src = some u → (src, u) ∈ s.readers) :=
  ⟨_, rfl, by decide, by decide, by decide, by decide, by decide,
    (udp_session_table
      [.datagram (str "A") (str "x") true, .datagram (str "B") (str "y") true,
       .datagram (str "A") (str "z") true, .readData (str "B") 1 (str "r"),
       .readError (str "A") 0, .datagram (str "A") (str "w") true] _ rfl).2.2.2.1⟩

/-- A run in which the dial for the second source fails: the nil pointer is
stored under `B`, nothing is written for it, the process has ended, and no
further step is possible. -/
theorem udp_failed_dial_panics :
    ∃ s, udpRun UdpState.init
        [.datagram (str "A") (str "x") true, .datagram (str "B") (str "y") false] = some s
      ∧ s.sessions (str "A") = some (some 0) ∧ s.sessions (str "B") = some none
      ∧ s.written = [(some 0, str "x")]
      ∧ s.panicked = true
      ∧ udpStep s (.datagram (str "A") (str "z") true) = none
      ∧ udpRun UdpState.init
        [.datagram (str "A") (str "x") true, .datagram (str "B") (str "y") false,
         .datagram (str "A") (str "z") true] = none :=
  ⟨_, rfl, by decide, by decide, by decide, by decide, rfl, rfl⟩

/-- C10. `addListener` appends its argument and leaves the earlier elements
in place, so after any sequence of `addListener` calls the registry is the
registered closables in registration order; on the signal `Close` is called
once for every element of the registry, in that order, whether or not a
`Close` returns an error, and the process then exits with status 0. -/
theorem registry_and_shutdown (registered : List Server.Closer)
    (activeListeners : List Server.Closer) (l : Server.Closer)
    (closeFails : Server.Closer → Bool) :
    Server.addListener activeListeners l = activeListeners ++ [l]
    ∧ (∀ i, i < activeListeners.length →
        (Server.addListener activeListeners l)[i]? = activeListeners[i]?)
    ∧ (Server.addListener activeListeners l)[activeListeners.length]? = some l
    ∧ registered.foldl Server.addListener [] = registered
    ∧ Server.shutdown closeFails activeListeners
        = activeListeners.map (fun l => Server.ShutdownEvent.close l (closeFails l))
          ++ [Server.ShutdownEvent.osExit 0]
    ∧ (Server.shutdown closeFails activeListeners).filterMap Server.ShutdownEvent.closed
        = activeListeners
    ∧ (Server.shutdown closeFails activeListeners).getLast?
        = some (Server.ShutdownEvent.osExit 0) := by
  have hfold : ∀ (ls acc : List Server.Closer), ls.foldl Server.addListener acc = acc ++ ls := by
    intro ls
    induction ls with
    | nil => intro acc; simp
    | cons x xs ih => intro acc; simp [ih, Server.addListener]
  have hclose : ∀ ls : List Server.Closer, Server.closeAll closeFails ls
      = ls.map (fun l => Server.ShutdownEvent.close l (closeFails l)) := by
    intro ls
    induction ls with
    | nil => rfl
    | cons x xs ih => simp [Server.closeAll, ih]
  refine ⟨rfl, ?_, ?_, ?_, ?_, ?_, ?_⟩
  · intro i hi
    simp only [Server.addListener]
    rw [List.getElem?_append_left hi]
  · simp [Server.addListener]
  · simpa using hfold registered []
  · simp only [Server.shutdown, hclose]
  · simp only [Server.shutdown, hclose, List.filterMap_append, List.filterMap_map]
    have : ∀ ls : List Server.Closer, List.filterMap (Server.ShutdownEvent.closed ∘ fun l =>
        Server.ShutdownEvent.close l (closeFails l)) ls = ls := by
      intro ls
      induction ls with
      | nil => rfl
      | cons x xs ih => simp [Server.ShutdownEvent.closed, ih]
    simp [this, Server.ShutdownEvent.closed]
  · simp [Server.shutdown]

/-! ## The data listeners of the server -/

/-- With an error from `net.Listen`, `startTcpDataListener` registers the nil
interface and panics at `defer listener.Close()`. -/
theorem startTcpDataListener_listen_failed (config : ServerConfig) (net : Server.Net)
    (accepts : List (Except IOError Nat)) (activeListeners : List Server.Handle) (err : IOError)
    (h : net.Listen (str "0.0.0.0:" ++ mapIndex config.DataPorts (str "TCP")) = .error err) :
    Server.startTcpDataListener config net accepts activeListeners
      = (activeListeners ++ [.nilInterface],
         [.listen (str "0.0.0.0:" ++ mapIndex config.DataPorts (str "TCP")),
          .addListener .nilInterface, .panic]) := by
  simp only [Server.startTcpDataListener, h, Server.listenerOf, Server.addListener]

/-- With an error from `net.Listen`, `startTcpMuxDataListener` registers the
nil interface and panics at `defer listener.Close()`. -/
theorem startTcpMuxDataListener_listen_failed (config : ServerConfig) (net : Server.Net)
    (accepts : List (Except IOError Nat)) (activeListeners : List Server.Handle) (err : IOError)
    (h : net.Listen (str "0.0.0.0:" ++ mapIndex config.DataPorts (str "TCPMux")) = .error err) :
    Server.startTcpMuxDataListener config net accepts activeListeners
      = (activeListeners ++ [.nilInterface],
         [.listen (str "0.0.0.0:" ++ mapIndex config.DataPorts (str "TCPMux")),
          .addListener .nilInterface, .panic]) := by
  simp only [Server.startTcpMuxDataListener, h, Server.listenerOf, Server.addListener]

/-- With an error from `net.ListenUDP`, `startUdpDataListener` registers the
nil pointer, and then either panics or calls `ReadFromUDP` and `Close` on it. -/
theorem startUdpDataListener_listen_failed (config : ServerConfig) (net : Server.Net)
    (reads : List (Except IOError Nat)) (activeListeners : List Server.Handle) (err : IOError)
    (h : net.ListenUDP (str "0.0.0.0:" ++ mapIndex config.DataPorts (str "UDP")) = .error err) :
    (Server.startUdpDataListener config net reads activeListeners).1
        = activeListeners ++ [.nilPointer]
    ∧ (Server.endsProcess (Server.startUdpDataListener config net reads activeListeners).2 = true
       ∨ Server.usesMissing (Server.startUdpDataListener config net reads activeListeners).2
           = true) := by
  simp only [Server.startUdpDataListener, h, Server.udpConnOf, Server.addListener, true_and]
  cases net.nilCall
  · left; rfl
  · right; rfl

/-- With an error from `kcp.ListenWithOptions`, `startUtcpMuxDataListener`
returns at once: nothing is registered, nothing is accepted, no panic. -/
theorem startUtcpMuxDataListener_listen_failed (config : ServerConfig) (net : Server.Net)
    (accepts : List (Except IOError Nat)) (activeListeners : List Server.Handle) (err : IOError)
    (h : net.ListenWithOptions (str "0.0.0.0:" ++ mapIndex config.DataPorts (str "UTCPMux"))
      = .error err) :
    Server.startUtcpMuxDataListener config net accepts activeListeners
      = (activeListeners,
         [.listen (str "0.0.0.0:" ++ mapIndex config.DataPorts (str "UTCPMux")), .returned]) := by
  simp only [Server.startUtcpMuxDataListener, h]

/-- With a certificate that cannot be loaded, `startWssDataListener` returns
at once although the port is free: the server stays in the registry, the new
listener is closed, nothing is accepted and nothing panics.  With the
certificate loaded it serves. -/
theorem startWssDataListener_certificate :
    let config : ServerConfig :=
      { ControlPort := str "7000",
        DataPorts := [(str "WSS", str "9006")],
        XrayInboundAddress := [],
        TlsCertPath := str "cert.pem",
        TlsKeyPath := str "key.pem",
        KcpConfig := ⟨0, 0, 0, 0, 0, 0, 0, 0⟩ }
    let net : Bool → Server.Net := fun loads =>
      { Listen := fun _ => .ok 5,
        ListenUDP := fun _ => .ok 6,
        ListenWithOptions := fun _ => .ok 7,
        nilCall := .panics,
        LoadX509KeyPair := fun _ _ => loads }
    Server.startDataListener .wss config (net false) 1 [.ok 40] [.listener 0]
        = ([.listener 0, .listener 1],
           [.addListener (.listener 1), .listen (str "0.0.0.0:9006"), .close (.listener 5),
            .returned])
    ∧ Server.startDataListener .wss config (net true) 1 [.ok 40, .error (.other 1)] [.listener 0]
        = ([.listener 0, .listener 1],
           [.addListener (.listener 1), .listen (str "0.0.0.0:9006"), .accept (.listener 5),
            .serve 40, .accept (.listener 5), .close (.listener 5), .returned])
    ∧ Server.startDataListener .ws config (net false) 1 [] [.listener 0]
        = ([.listener 0, .listener 1],
           [.addListener (.listener 1), .listen (str "0.0.0.0:"), .accept (.listener 5)]) := by
  decide

/-- C11. The claim fails on the code.  With the data ports 9001 to 9008
configured, every one of them already in use (each listen call returns an
error) and the control listener alone in the registry:
`startTcpDataListener` and `startTcpMuxDataListener` register the nil
listener and panic, which ends the process; `startUdpDataListener` registers
the nil socket and then panics or reads from it; `startWsDataListener` leaves
its server in the registry and returns.  Only `startUtcpMuxDataListener`
returns with the registry unchanged, as the claim says of all of them. -/
theorem listen_failure_not_contained :
    let config : ServerConfig :=
      { ControlPort := str "7000",
        DataPorts := [(str "TCP", str "9001"), (str "UDP", str "9002"), (str "WS", str "9003"),
                      (str "TCPMux", str "9004"), (str "WSMux", str "9005"),
                      (str "WSS", str "9006"), (str "WSSMux", str "9007"),
                      (str "UTCPMux", str "9008")],
        XrayInboundAddress := str "127.0.0.1:443",
        TlsCertPath := str "cert.pem",
        TlsKeyPath := str "key.pem",
        KcpConfig := ⟨1, 10, 2, 1, 1024, 1024, 10, 3⟩ }
    let inUse : Server.NilCall → Server.Net := fun nilCall =>
      { Listen := fun _ => .error (.other 98),
        ListenUDP := fun _ => .error (.other 98),
        ListenWithOptions := fun _ => .error (.other 98),
        nilCall := nilCall }
    let control : List Server.Handle := [.listener 0]
    Server.startDataListener .tcp config (inUse .panics) 1 [] control
        = ([.listener 0, .nilInterface],
           [.listen (str "0.0.0.0:9001"), .addListener .nilInterface, .panic])
    ∧ Server.endsProcess (Server.startDataListener .tcp config (inUse .panics) 1 [] control).2
        = true
    ∧ Server.startDataListener .tcpmux config (inUse .panics) 1 [] control
        = ([.listener 0, .nilInterface],
           [.listen (str "0.0.0.0:9004"), .addListener .nilInterface, .panic])
    ∧ Server.startDataListener .udp config (inUse .panics) 1 [] control
        = ([.listener 0, .nilPointer],
           [.listen (str "0.0.0.0:9002"), .addListener .nilPointer, .panic])
    ∧ Server.startDataListener .udp config (inUse .fails) 1 [] control
        = ([.listener 0, .nilPointer],
           [.listen (str "0.0.0.0:9002"), .addListener .nilPointer, .accept .nilPointer,
            .close .nilPointer, .returned])
    ∧ Server.usesMissing (Server.startDataListener .udp config (inUse .fails) 1 [] control).2
        = true
    ∧ Server.startDataListener .ws config (inUse .panics) 1 [] control
        = ([.listener 0, .listener 1],
           [.addListener (.listener 1), .listen (str "0.0.0.0:9003"), .returned])
    ∧ Server.startDataListener .utcpmux config (inUse .panics) 1 [] control
        = ([.listener 0], [.listen (str "0.0.0.0:9008"), .returned]) := by
  decide

end GTun
